import Mathlib

/-!
Shallow embedding of the stock-reconciliation core of the
`match-product-availability` repository:

* `parse_b2b_feed`   — src/core/feed_processor.py  (supplier feed normalizer)
* `load_woo_export`  — src/core/woo_processor.py   (inventory export normalizer)
* `detect_changes`   — src/core/sync_processor.py  (reconciler)

Python dictionaries are modelled as insertion-ordered association lists with
overwrite-in-place semantics (`dictInsert`); Python strings are Lean `String`s,
with the string-manipulation primitives (`str.strip`, `int(...)`,
`int(float(...))`, `str.endswith`) modelled over the underlying `List Char`.
Fallible Python code (functions whose body can raise) returns `Except String`.
-/

namespace StockSync

/-! ## Python dictionary model -/

/-- Insertion-ordered association list, the model of a Python `dict`. -/
abbrev AList (α : Type) := List (String × α)

/-- `d[k]` / `d.get(k)`: first binding of `k` (bindings are unique once built
with `dictInsert`). -/
def dictGet (k : String) : AList α → Option α
  | [] => none
  | (k', v) :: rest => if k' = k then some v else dictGet k rest

/-- `d[k] = v`: Python dict assignment — overwrite in place if the key exists
(keeping its insertion position), otherwise append at the end. -/
def dictInsert (k : String) (v : α) : AList α → AList α
  | [] => [(k, v)]
  | (k', v') :: rest =>
    if k' = k then (k, v) :: rest else (k', v') :: dictInsert k v rest

/-- `s.add(x)` on a Python `set`, modelled as a first-occurrence-deduplicated
list.  (CPython iterates a set in hash order; every property proved below about
the universe list is order-insensitive, so insertion order is a faithful
stand-in.) -/
def addSku (s : String) (l : List String) : List String :=
  if s ∈ l then l else l ++ [s]

/-! ## Python string primitives -/

/-- `str.strip()` on the character list: drop whitespace from both ends. -/
def pyStripL (l : List Char) : List Char :=
  ((l.dropWhile Char.isWhitespace).reverse.dropWhile Char.isWhitespace).reverse

/-- `str.strip()`. -/
def pyStripS (s : String) : String := ⟨pyStripL s.data⟩

/-- Digit run to a natural number. -/
def digitsToNat (l : List Char) : Nat :=
  l.foldl (fun a c => a * 10 + (c.toNat - 48)) 0

/-- Python `int(s)` on a string: optional surrounding whitespace, optional
sign, then a non-empty digit run; anything else raises `ValueError` (`none`).
(Digit-group underscores, accepted by CPython, are not modelled; no input used
in this development contains them.) -/
def pyParseInt (s : String) : Option Int :=
  match pyStripL s.data with
  | [] => none
  | '+' :: ds => if ds ≠ [] ∧ ds.all Char.isDigit then some (digitsToNat ds) else none
  | '-' :: ds => if ds ≠ [] ∧ ds.all Char.isDigit then some (-(digitsToNat ds : Int)) else none
  | ds => if ds.all Char.isDigit then some (digitsToNat ds) else none

/-- Python `int(float(s))` on a non-empty string: optional surrounding
whitespace, optional sign, then `digits`, `digits.digits?` or `.digits`;
truncation toward zero keeps exactly the integer-part digits, negated when the
sign is `-`.  Exponent forms, `inf`/`nan` and binary-rounding artifacts of
IEEE floats at extreme precision are outside the model; no input used in this
development involves them. -/
def pyFloatTrunc (s : String) : Option Int :=
  let t := pyStripL s.data
  let signBody : Bool × List Char :=
    match t with
    | '+' :: r => (false, r)
    | '-' :: r => (true, r)
    | r => (false, r)
  let neg := signBody.1
  let body := signBody.2
  let intPart := body.takeWhile Char.isDigit
  let rest := body.dropWhile Char.isDigit
  let ok : Bool :=
    match rest with
    | [] => !intPart.isEmpty
    | '.' :: frac => (!intPart.isEmpty || !frac.isEmpty) && frac.all Char.isDigit
    | _ => false
  if ok then some (if neg then -(digitsToNat intPart : Int) else digitsToNat intPart)
  else none

/-! ## Shared constants (src/constants.py) -/

def STATUS_IN_STOCK : String := "instock"
def STATUS_OUT_OF_STOCK : String := "outofstock"
def DEFAULT_MANAGE_STOCK : String := "yes"

/-- The repeated source idiom `STATUS_IN_STOCK if qty > 0 else
STATUS_OUT_OF_STOCK`. -/
def statusOf (n : Int) : String :=
  if n > 0 then STATUS_IN_STOCK else STATUS_OUT_OF_STOCK

/-! ## Supplier feed normalizer (src/core/feed_processor.py, parse_b2b_feed) -/

/-- One `<item>` element of a product's `<stock>` section: the `quantity` and
`ean` attributes (absent attribute = `none`). -/
structure FeedItem where
  quantity : Option String
  ean : Option String
deriving DecidableEq

/-- One `<product>` element: text of its first `<mpn>` child (`none` when the
element is missing or empty), and the items of its first `<stock>` child
(`none` when there is no `<stock>` element). -/
structure FeedProduct where
  mpn : Option String
  stock : Option (List FeedItem)
deriving DecidableEq

/-- A value of the `b2b_products` dict: `{'type', 'sku'/'ean', 'stock',
'stock_status'}` (absent dict keys = `none`). -/
structure B2BRecord where
  typ : String
  sku : Option String
  ean : Option String
  stock : Int
  stock_status : String
deriving DecidableEq

/-- `int(item.get('quantity', 0))`: a missing attribute defaults to the
integer `0`; a present attribute string goes through `int(...)`, whose
`ValueError` propagates out of the parser. -/
def parseQty : Option String → Except String Int
  | none => .ok 0
  | some s =>
    match pyParseInt s with
    | some n => .ok n
    | none => .error "invalid literal for int()"

/-- The inner `for item in stock_elem.findall('item')` loop: accumulate the
parent total and insert a variation record for every item with a non-blank
`ean` attribute. -/
def parseItems : List FeedItem → AList B2BRecord → Int →
    Except String (AList B2BRecord × Int)
  | [], products, total => .ok (products, total)
  | item :: rest, products, total => do
    let qty ← parseQty item.quantity
    let total' := total + qty
    let ean := pyStripS (item.ean.getD "")
    let products' :=
      if ean ≠ "" then
        dictInsert ("ean_" ++ ean)
          ⟨"variation", none, some ean, qty, statusOf qty⟩ products
      else products
    parseItems rest products' total'

/-- The body of the `for product in root.findall('.//product')` loop: skip the
product unless its `<mpn>` text is truthy, otherwise process its stock items
and insert the parent record keyed `sku_<stripped mpn>`. -/
def parseProduct (products : AList B2BRecord) (p : FeedProduct) :
    Except String (AList B2BRecord) :=
  match p.mpn with
  | some t =>
    if t ≠ "" then do
      let sku := pyStripS t
      let (products', total) ← parseItems (p.stock.getD []) products 0
      .ok (dictInsert ("sku_" ++ sku)
            ⟨"parent", some sku, none, total, statusOf total⟩ products')
    else .ok products
  | none => .ok products

/-- `parse_b2b_feed`: fold the product loop over the whole document. -/
def parse_b2b_feed (feed : List FeedProduct) : Except String (AList B2BRecord) :=
  feed.foldlM parseProduct []

/-! ## Inventory export normalizer (src/core/woo_processor.py, load_woo_export) -/

/-- One CSV row as seen through `csv.DictReader`: the five fields the loader
reads (a missing column = `none`; a present-but-empty cell = `some ""`). -/
structure WooRow where
  sku : Option String
  post_parent : Option String
  ean : Option String
  stock : Option String
  stock_status : Option String
deriving DecidableEq

/-- A product value of the `woo_products` dict. -/
structure WooRecord where
  sku : Option String
  ean : Option String
  current_stock : Option Int
  current_status : Option String
  typ : String
  parent_id : Option String
deriving DecidableEq

/-- A value of the `woo_products` dict: product rows store record dicts, and
the reserved `'_all_skus'` key stores a plain list of SKU strings. -/
inductive WooEntry where
  | record : WooRecord → WooEntry
  | skuList : List String → WooEntry
deriving DecidableEq

/-- `int(float(row.get('stock', 0) or 0))`: a missing column or empty cell
defaults to `0`; otherwise the text goes through `float(...)` then `int(...)`,
whose exceptions propagate out of the loader. -/
def parseStockField : Option String → Except String Int
  | none => .ok 0
  | some s =>
    if s = "" then .ok 0
    else
      match pyFloatTrunc s with
      | some n => .ok n
      | none => .error "could not convert string to float"

/-- `if row.get('sku') and row['sku'].strip(): all_skus.add(row['sku'].strip())`
— the tracked value, when the SKU cell is truthy and strips to something
non-blank.  (`s ≠ "" ∧ pyStripS s ≠ ""` collapses to `pyStripS s ≠ ""` since
stripping the empty string yields the empty string.) -/
def skuTracked (row : WooRow) : Option String :=
  match row.sku with
  | some s => if pyStripS s ≠ "" then some (pyStripS s) else none
  | none => none

/-- `ean = row['ean'].strip()` followed by
`if ean.endswith('.0'): ean = ean[:-2]` — strip, then drop one trailing
`".0"` when the last two characters are `'.'` then `'0'`. -/
def stripDot0L (l : List Char) : List Char :=
  match l.reverse with
  | '0' :: '.' :: rest => rest.reverse
  | _ => l

/-- The export normalizer's EAN-to-text normalization (strip, then drop one
trailing `".0"`). -/
def normalizeEan (s : String) : String := ⟨stripDot0L (pyStripL s.data)⟩

/-- The body of the `for row in rows` loop of `load_woo_export`.  The Python
truthiness tests collapse as follows (commented against the source):
`row.get('sku') and row['sku'].strip()` ⟺ `pyStripS (row.sku.getD "") ≠ ""`;
`not row.get('post_parent') or row['post_parent'] == ''` ⟺
`row.post_parent.getD "" = ""`;
`row.get('post_parent') and row['post_parent'].strip()` ⟺
`pyStripS (row.post_parent.getD "") ≠ ""`. -/
def processRow (products : AList WooEntry) (skus : List String) (row : WooRow) :
    Except String (AList WooEntry × List String) :=
  let skus' :=
    match skuTracked row with
    | some s => addSku s skus
    | none => skus
  if pyStripS (row.sku.getD "") ≠ "" ∧
      (row.post_parent.getD "" = "" ∨ row.post_parent = some "0") then do
    let n ← parseStockField row.stock
    let s := pyStripS (row.sku.getD "")
    .ok (dictInsert ("sku_" ++ s)
          (.record ⟨some s, none, some n,
            some (row.stock_status.getD "outofstock"), "parent", none⟩) products,
        skus')
  else if pyStripS (row.ean.getD "") ≠ "" ∧
      pyStripS (row.post_parent.getD "") ≠ "" then do
    let n ← parseStockField row.stock
    let e := normalizeEan (row.ean.getD "")
    .ok (dictInsert ("ean_" ++ e)
          (.record ⟨some (pyStripS (row.sku.getD "")), some e, some n,
            some (row.stock_status.getD "outofstock"), "variation",
            row.post_parent⟩) products,
        skus')
  else .ok (products, skus')

/-- The row loop, folded with both accumulators. -/
def loadRows : List WooRow → AList WooEntry → List String →
    Except String (AList WooEntry × List String)
  | [], products, skus => .ok (products, skus)
  | row :: rest, products, skus => do
    let (products', skus') ← processRow products skus row
    loadRows rest products' skus'

/-- `load_woo_export`: process every row, then store the tracked SKU set under
the reserved key `'_all_skus'`. -/
def load_woo_export (rows : List WooRow) : Except String (AList WooEntry) := do
  let (products, skus) ← loadRows rows [] []
  .ok (dictInsert "_all_skus" (.skuList skus) products)

/-! ## Reconciler (src/core/sync_processor.py, detect_changes) -/

/-- One change record appended to the `changes` list. -/
structure ChangeRec where
  sku : String
  ean : String
  manage_stock : String
  stock_status : String
  stock : Int
deriving DecidableEq

/-- One audit entry appended to the `change_log` list.  The `key` field is the
Python expression `sku or woo_data.get('ean')`, which is `None` when both are
missing/empty. -/
structure LogEntry where
  key : Option String
  old_stock : Int
  new_stock : Int
  old_status : String
  new_status : String
deriving DecidableEq

/-- `woo_products.get('_all_skus', [])`.  This embedding covers the case where
the entry, when present, is the SKU list — the shape `load_woo_export` always
produces; every theorem below about `detect_changes` operates on such inputs. -/
def universeOf (woo : AList WooEntry) : List String :=
  match dictGet "_all_skus" woo with
  | some (.skuList l) => l
  | _ => []

/-- `{sku: False for sku in all_skus}`. -/
def initProcessed (skus : List String) : AList Bool :=
  skus.foldl (fun d s => dictInsert s false d) []

/-- The body of the change-detection loop for one `(key, woo_data)` pair of
`woo_products.items()`.  A list stored under a non-reserved key that matches a
supplier key would make Python raise `AttributeError` at
`woo_data.get('sku', '')`; a matched record without `'current_stock'` or
`'current_status'` would raise `KeyError` at the comparison. -/
def changeStep (b2b : AList B2BRecord)
    (st : AList Bool × List ChangeRec × List LogEntry)
    (kv : String × WooEntry) :
    Except String (AList Bool × List ChangeRec × List LogEntry) :=
  let (processed, changes, log) := st
  if kv.1 = "_all_skus" then .ok st
  else
    match dictGet kv.1 b2b with
    | none => .ok st
    | some b2b_data =>
      match kv.2 with
      | .skuList _ => .error "AttributeError"
      | .record woo_data =>
        let sku := woo_data.sku.getD ""
        let processed' :=
          if sku ≠ "" then dictInsert sku true processed else processed
        match woo_data.current_stock, woo_data.current_status with
        | some cs, some cst =>
          if cs ≠ b2b_data.stock ∨ cst ≠ b2b_data.stock_status then
            .ok (processed',
              changes ++ [⟨sku, woo_data.ean.getD "", DEFAULT_MANAGE_STOCK,
                b2b_data.stock_status, b2b_data.stock⟩],
              log ++ [⟨if sku ≠ "" then some sku else woo_data.ean,
                cs, b2b_data.stock, cst, b2b_data.stock_status⟩])
          else .ok (processed', changes, log)
        | _, _ => .error "KeyError"

/-- The change-detection pass: the first `for key, woo_data in
woo_products.items()` loop. -/
def changePassRun (b2b : AList B2BRecord) (woo : AList WooEntry)
    (st : AList Bool × List ChangeRec × List LogEntry) :
    Except String (AList Bool × List ChangeRec × List LogEntry) :=
  woo.foldlM (changeStep b2b) st

/-- The retention record built from the first export record found for an
unprocessed SKU: the export's own current values, with the loop's defaults. -/
def mkRetention (sku : String) (woo_data : WooRecord) : ChangeRec :=
  ⟨sku, woo_data.ean.getD "", DEFAULT_MANAGE_STOCK,
    woo_data.current_status.getD "outofstock",
    woo_data.current_stock.getD 0⟩

/-- The inner `for key, woo_data in woo_products.items(): ... break` search of
the retention pass: first non-reserved entry whose `'sku'` field equals `sku`.
A list stored under a non-reserved key makes Python raise `AttributeError` at
`woo_data.get('sku')`. -/
def findRetention (sku : String) : AList WooEntry → Except String (Option ChangeRec)
  | [] => .ok none
  | (key, entry) :: rest =>
    if key = "_all_skus" then findRetention sku rest
    else
      match entry with
      | .skuList _ => .error "AttributeError"
      | .record woo_data =>
        if woo_data.sku = some sku then .ok (some (mkRetention sku woo_data))
        else findRetention sku rest

/-- The retention pass: `for sku, processed in processed_skus.items()`,
appending at most one retention record per unprocessed SKU. -/
def retentionLoop (woo : AList WooEntry) : AList Bool → Except String (List ChangeRec)
  | [] => .ok []
  | (sku, processed) :: rest =>
    if processed then retentionLoop woo rest
    else do
      let c ← findRetention sku woo
      let rest' ← retentionLoop woo rest
      .ok (c.toList ++ rest')

/-- `detect_changes`: change pass over the export mapping, then retention pass
over the processed-markers dict (which, after the change pass, holds every
universe SKU plus any matched SKUs the change pass added). -/
def detect_changes (b2b : AList B2BRecord) (woo : AList WooEntry) :
    Except String (List ChangeRec × List LogEntry) := do
  let (processed, changes, log) ←
    changePassRun b2b woo (initProcessed (universeOf woo), [], [])
  let rets ← retentionLoop woo processed
  .ok (changes ++ rets, log)

/-! ## Derived characterizations and spec-side definitions

These are not translations of further source code: they are restructured views
of the functions above (per-entry contribution functions for the two passes of
`detect_changes`) and, for the refinement claim C6, a classifier written from
the specification's wording, to be compared with the source translation. -/

/-- Concatenation of per-element contributions (`List.flatMap`, inlined for
stable lemma names). -/
def listJoinMap (f : α → List β) : List α → List β
  | [] => []
  | a :: l => f a ++ listJoinMap f l

/-- The change records the change pass contributes for one export entry.  This
is a per-entry reading of `changeStep`'s appends; the agreement is proved in
`changePassRun_characterization` below. -/
def changeContrib (b2b : AList B2BRecord) (kv : String × WooEntry) : List ChangeRec :=
  if kv.1 = "_all_skus" then []
  else
    match dictGet kv.1 b2b with
    | none => []
    | some bd =>
      match kv.2 with
      | .skuList _ => []
      | .record r =>
        match r.current_stock, r.current_status with
        | some cs, some cst =>
          if cs ≠ bd.stock ∨ cst ≠ bd.stock_status then
            [⟨r.sku.getD "", r.ean.getD "", DEFAULT_MANAGE_STOCK,
              bd.stock_status, bd.stock⟩]
          else []
        | _, _ => []

/-- The audit-log entries the change pass contributes for one export entry. -/
def logContrib (b2b : AList B2BRecord) (kv : String × WooEntry) : List LogEntry :=
  if kv.1 = "_all_skus" then []
  else
    match dictGet kv.1 b2b with
    | none => []
    | some bd =>
      match kv.2 with
      | .skuList _ => []
      | .record r =>
        match r.current_stock, r.current_status with
        | some cs, some cst =>
          if cs ≠ bd.stock ∨ cst ≠ bd.stock_status then
            [⟨if r.sku.getD "" ≠ "" then some (r.sku.getD "") else r.ean,
              cs, bd.stock, cst, bd.stock_status⟩]
          else []
        | _, _ => []

/-- The `'sku'` field of a stored entry, as `woo_data.get('sku')` would read it
on a record; `none` stands in for the list case (which the retention search
never reaches without raising, see `findRetention`). -/
def entrySku : WooEntry → Option String
  | .record r => r.sku
  | .skuList _ => none

/-- Does this export entry carry SKU `s` for the retention search? -/
def carriesSku (s : String) (kv : String × WooEntry) : Bool :=
  decide (kv.1 ≠ "_all_skus" ∧ entrySku kv.2 = some s)

/-- The retention records contributed for one `(sku, processed)` marker: none
when processed, otherwise the record built from the first export entry carrying
the SKU, if any.  Agreement with `retentionLoop` is proved below. -/
def retContrib (woo : AList WooEntry) (sb : String × Bool) : List ChangeRec :=
  if sb.2 then []
  else
    match woo.find? (carriesSku sb.1) with
    | some (_, .record r) => [mkRetention sb.1 r]
    | _ => []

/-- Classification outcome of one export row, per the specification. -/
inductive RowClass where
  | parentRow (sku : String)
  | variantRow (ean : String)
  | unkeyed
deriving DecidableEq

/-- Spec-side classifier for claim C6, written from the claim's wording
(first match wins): a non-blank primary identifier with an absent, blank or
literal-`'0'` parent reference is a parent; otherwise a non-blank EAN with a
non-blank parent reference is a variant; otherwise the row is unkeyed.
"Non-blank" is "strips to something non-empty". -/
def specClassify (row : WooRow) : RowClass :=
  if pyStripS (row.sku.getD "") ≠ "" ∧
      (row.post_parent = none ∨ row.post_parent = some "" ∨ row.post_parent = some "0") then
    .parentRow (pyStripS (row.sku.getD ""))
  else if pyStripS (row.ean.getD "") ≠ "" ∧ pyStripS (row.post_parent.getD "") ≠ "" then
    .variantRow (normalizeEan (row.ean.getD ""))
  else .unkeyed

/-- Does the character list end in `'.'` then `'0'`?  (The export normalizer's
`ean.endswith('.0')` test, used to state hypotheses decidably.) -/
def endsDot0 (l : List Char) : Bool :=
  match l.reverse with
  | '0' :: '.' :: _ => true
  | _ => false

/-- The quantity a feed item contributes when the whole parse succeeds. -/
def itemVal (i : FeedItem) : Int :=
  match i.quantity with
  | none => 0
  | some s => (pyParseInt s).getD 0

/-- The parent key a feed product writes, if any. -/
def prodKey (p : FeedProduct) : Option String :=
  match p.mpn with
  | some t => if t ≠ "" then some ("sku_" ++ pyStripS t) else none
  | none => none

/-- Availability agrees with quantity: `instock` exactly when the quantity is
positive, `outofstock` otherwise. -/
def statusAgrees (r : B2BRecord) : Prop :=
  (r.stock > 0 ∧ r.stock_status = STATUS_IN_STOCK) ∨
  (r.stock ≤ 0 ∧ r.stock_status = STATUS_OUT_OF_STOCK)

/-- Well-formedness of an export mapping, as `load_woo_export` produces it:
the reserved key holds the SKU list, every other key holds a record whose
`'current_stock'` and `'current_status'` fields are present. -/
def wfWoo (m : AList WooEntry) : Prop :=
  ∀ kv ∈ m,
    (kv.1 = "_all_skus" → ∃ l, kv.2 = WooEntry.skuList l) ∧
    (kv.1 ≠ "_all_skus" → ∃ r, kv.2 = WooEntry.record r ∧
      r.current_stock ≠ none ∧ r.current_status ≠ none)

/-- Uniqueness of keys in an association list (invariant of `dictInsert`). -/
def KeysNodup (l : AList α) : Prop := (l.map Prod.fst).Nodup

/-- Invariant of the keyed part of the export mapping while rows are being
processed: keys are `sku_`/`ean_`-shaped (hence never the reserved key) and
values are records with both current fields present. -/
def wfProducts (l : AList WooEntry) : Prop :=
  ∀ kv ∈ l, (kv.1 ≠ "_all_skus" ∧ ∃ x, kv.1 = "sku_" ++ x ∨ kv.1 = "ean_" ++ x) ∧
    ∃ r, kv.2 = WooEntry.record r ∧ r.current_stock ≠ none ∧ r.current_status ≠ none

/-! ## Concrete inputs for counterexamples and witnesses -/

/-- A supplier mapping with one parent: quantity 5, in stock. -/
def exB2B : AList B2BRecord :=
  [("sku_A", ⟨"parent", some "A", none, 5, "instock"⟩)]

/-- An export whose single row matches `exB2B` with identical values. -/
def exRowsEq : List WooRow :=
  [⟨some "A", none, none, some "5", some "instock"⟩]

/-- An export whose single row is unclassifiable (whitespace parent reference)
but still contributes its SKU to the universe. -/
def exRowsOrphan : List WooRow :=
  [⟨some "B", some " ", some "X", some "1", some "instock"⟩]

/-- A feed whose single item has a negative quantity string. -/
def exFeedNeg : List FeedProduct :=
  [⟨some "A", some [⟨some "-3", some "E"⟩]⟩]

/-- A feed whose single item has an unparsable quantity string. -/
def exFeedBad : List FeedProduct :=
  [⟨some "A", some [⟨some "x", some "E"⟩]⟩]

/-- A feed whose single item carries an EAN with a trailing `.0` artifact. -/
def exFeedDot0 : List FeedProduct :=
  [⟨some "A", some [⟨some "5", some "123456.0"⟩]⟩]

/-- The mapping `load_woo_export` produces for `exRowsEq`. -/
def exWooEq : AList WooEntry :=
  [("sku_A", .record ⟨some "A", none, some 5, some "instock", "parent", none⟩),
   ("_all_skus", .skuList ["A"])]

/-- The mapping `load_woo_export` produces for `exRowsOrphan`: the orphan row
is unkeyed, so only the universe entry remains. -/
def exWooOrphan : AList WooEntry :=
  [("_all_skus", .skuList ["B"])]

/-- A supplier mapping that does not list the export's SKU `A`. -/
def exB2BOther : AList B2BRecord :=
  [("sku_Z", ⟨"parent", some "Z", none, 9, "instock"⟩)]

/-- A supplier mapping disagreeing with `exWooEq` on both components, per the
specification's change-correctness example. -/
def exB2BZero : AList B2BRecord :=
  [("sku_A", ⟨"parent", some "A", none, 0, "outofstock"⟩)]

/-- Export rows with two variant rows sharing the SKU `C`. -/
def exRowsDup : List WooRow :=
  [⟨some "C", some "7", some "E1", some "4", some "instock"⟩,
   ⟨some "C", some "7", some "E2", some "9", some "instock"⟩]

/-- The mapping `load_woo_export` produces for `exRowsDup`. -/
def exWooDup : AList WooEntry :=
  [("ean_E1", .record ⟨some "C", some "E1", some 4, some "instock", "variation", some "7"⟩),
   ("ean_E2", .record ⟨some "C", some "E2", some 9, some "instock", "variation", some "7"⟩),
   ("_all_skus", .skuList ["C"])]

/-- The specification's quantity-aggregation example: variant quantities
`[3, 0, 5]`. -/
def exFeedSum : List FeedProduct :=
  [⟨some "P", some [⟨some "3", some "E1"⟩, ⟨some "0", some "E2"⟩, ⟨some "5", none⟩]⟩]

/-! ## Basic lemmas about the dictionary model -/

theorem dictGet_dictInsert_self (k : String) (v : α) (l : AList α) :
    dictGet k (dictInsert k v l) = some v := by
  induction l with
  | nil => simp [dictInsert, dictGet]
  | cons hd tl ih =>
    obtain ⟨k', v'⟩ := hd
    by_cases h : k' = k
    · subst h; simp [dictInsert, dictGet]
    · simp [dictInsert, dictGet, h, ih]

theorem dictGet_dictInsert_ne (k k' : String) (v : α) (l : AList α) (h : k' ≠ k) :
    dictGet k' (dictInsert k v l) = dictGet k' l := by
  have h' : ¬ k = k' := fun hh => h hh.symm
  induction l with
  | nil => simp [dictInsert, dictGet, h']
  | cons hd tl ih =>
    obtain ⟨k₀, v₀⟩ := hd
    by_cases h0 : k₀ = k
    · subst h0
      simp [dictInsert, dictGet, h']
    · simp only [dictInsert, if_neg h0, dictGet]
      by_cases h1 : k₀ = k'
      · simp [h1]
      · simp [h1, ih]

theorem mem_dictInsert (k : String) (v : α) (l : AList α) (kv : String × α)
    (h : kv ∈ dictInsert k v l) : kv = (k, v) ∨ kv ∈ l := by
  induction l with
  | nil => simpa [dictInsert] using h
  | cons hd tl ih =>
    obtain ⟨k₀, v₀⟩ := hd
    by_cases h0 : k₀ = k
    · subst h0
      rw [show dictInsert k₀ v ((k₀, v₀) :: tl) = (k₀, v) :: tl from by
        simp [dictInsert]] at h
      rcases List.mem_cons.mp h with h1 | h1
      · exact .inl h1
      · exact .inr (List.mem_cons_of_mem _ h1)
    · rw [show dictInsert k v ((k₀, v₀) :: tl) = (k₀, v₀) :: dictInsert k v tl from by
        simp [dictInsert, h0]] at h
      rcases List.mem_cons.mp h with h1 | h1
      · exact .inr (by simp [h1])
      · rcases ih h1 with h2 | h2
        · exact .inl h2
        · exact .inr (List.mem_cons_of_mem _ h2)

theorem mem_of_dictGet_eq_some (k : String) (v : α) (l : AList α)
    (h : dictGet k l = some v) : (k, v) ∈ l := by
  induction l with
  | nil => simp [dictGet] at h
  | cons hd tl ih =>
    obtain ⟨k₀, v₀⟩ := hd
    by_cases h0 : k₀ = k
    · subst h0
      rw [show dictGet k₀ ((k₀, v₀) :: tl) = some v₀ from by simp [dictGet]] at h
      obtain rfl : v₀ = v := Option.some.inj h
      exact List.mem_cons_self _ _
    · simp only [dictGet, if_neg h0] at h
      exact List.mem_cons_of_mem _ (ih h)

theorem keys_dictInsert (k : String) (v : α) (l : AList α) :
    (dictInsert k v l).map Prod.fst =
      if k ∈ l.map Prod.fst then l.map Prod.fst else l.map Prod.fst ++ [k] := by
  induction l with
  | nil => simp [dictInsert]
  | cons hd tl ih =>
    obtain ⟨k₀, v₀⟩ := hd
    by_cases h0 : k₀ = k
    · subst h0; simp [dictInsert]
    · have hk : ¬ k = k₀ := fun hh => h0 hh.symm
      simp only [dictInsert, if_neg h0, List.map_cons, ih, List.mem_cons]
      by_cases hm : k ∈ tl.map Prod.fst
      · simp [hm, hk]
      · simp [hm, hk]

theorem keysNodup_dictInsert (k : String) (v : α) (l : AList α)
    (h : KeysNodup l) : KeysNodup (dictInsert k v l) := by
  unfold KeysNodup at *
  rw [keys_dictInsert]
  by_cases hm : k ∈ l.map Prod.fst
  · simpa [hm] using h
  · simp [hm, List.nodup_append, h]

theorem keysNodup_nil : KeysNodup ([] : AList α) := by simp [KeysNodup]

theorem dictGet_head_ne (k k' : String) (v : α) (l : AList α) (h : k' ≠ k) :
    dictGet k ((k', v) :: l) = dictGet k l := by
  simp [dictGet, h]

/-! ## Key-shape facts: the three key namespaces never collide -/

theorem sku_key_ne_reserved (s : String) : "sku_" ++ s ≠ "_all_skus" := by
  intro h
  have h2 := congrArg String.data h
  simp [String.data_append, String.data] at h2

theorem ean_key_ne_reserved (s : String) : "ean_" ++ s ≠ "_all_skus" := by
  intro h
  have h2 := congrArg String.data h
  simp [String.data_append, String.data] at h2

theorem sku_key_ne_ean_key (a b : String) : "sku_" ++ a ≠ "ean_" ++ b := by
  intro h
  have h2 := congrArg String.data h
  simp [String.data_append, String.data] at h2

/-! ## Unfolding equations for the reconciler's loops -/

theorem changePassRun_nil (b2b : AList B2BRecord) (st) :
    changePassRun b2b [] st = .ok st := rfl

theorem changePassRun_cons (b2b : AList B2BRecord) (kv : String × WooEntry)
    (rest : AList WooEntry) (st) :
    changePassRun b2b (kv :: rest) st =
      changeStep b2b st kv >>= fun st' => changePassRun b2b rest st' := rfl

theorem except_bind_ok (a : α) (f : α → Except ε β) :
    (Except.ok a >>= f : Except ε β) = f a := rfl

theorem except_bind_err (e : ε) (f : α → Except ε β) :
    (Except.error e >>= f : Except ε β) = Except.error e := rfl

theorem mem_listJoinMap (f : α → List β) (l : List α) (b : β) :
    b ∈ listJoinMap f l ↔ ∃ a ∈ l, b ∈ f a := by
  induction l with
  | nil => simp [listJoinMap]
  | cons a l ih => simp [listJoinMap, ih]

theorem dictGet_false_of_insert_true (s t : String) (p : AList Bool)
    (h : dictGet s (dictInsert t true p) = some false) :
    s ≠ t ∧ dictGet s p = some false := by
  by_cases hst : s = t
  · subst hst
    rw [dictGet_dictInsert_self] at h
    simp at h
  · exact ⟨hst, by rwa [dictGet_dictInsert_ne _ _ _ _ hst] at h⟩

/-- Characterization of the change pass: under success, the change and log
lists grow by exactly the per-entry contributions, and a SKU whose marker is
still `false` afterwards was `false` before and is carried by no contributed
change record. -/
theorem changePassRun_characterization (b2b : AList B2BRecord) (woo : AList WooEntry) :
    ∀ (p : AList Bool) (cs : List ChangeRec) (lg : List LogEntry) p' cs' lg',
    changePassRun b2b woo (p, cs, lg) = .ok (p', cs', lg') →
    cs' = cs ++ listJoinMap (changeContrib b2b) woo ∧
    lg' = lg ++ listJoinMap (logContrib b2b) woo ∧
    ∀ s, s ≠ "" → dictGet s p' = some false →
      dictGet s p = some false ∧
      ∀ c ∈ listJoinMap (changeContrib b2b) woo, c.sku ≠ s := by
  induction woo with
  | nil =>
    intro p cs lg p' cs' lg' h
    rw [changePassRun_nil] at h
    simp only [Except.ok.injEq, Prod.mk.injEq] at h
    obtain ⟨rfl, rfl, rfl⟩ := h
    simp [listJoinMap]
  | cons kv rest ih =>
    intro p cs lg p' cs' lg' h
    obtain ⟨key, entry⟩ := kv
    rw [changePassRun_cons] at h
    by_cases hkey : key = "_all_skus"
    · have hstep : changeStep b2b (p, cs, lg) (key, entry) = .ok (p, cs, lg) := by
        simp [changeStep, hkey]
      rw [hstep, except_bind_ok] at h
      obtain ⟨hc, hl, hp⟩ := ih p cs lg p' cs' lg' h
      have hcontrib : changeContrib b2b (key, entry) = [] := by
        simp [changeContrib, hkey]
      have hlontrib : logContrib b2b (key, entry) = [] := by
        simp [logContrib, hkey]
      refine ⟨?_, ?_, ?_⟩
      · rw [hc]; simp [listJoinMap, hcontrib]
      · rw [hl]; simp [listJoinMap, hlontrib]
      · intro s hs hf
        obtain ⟨h1, h2⟩ := hp s hs hf
        refine ⟨h1, ?_⟩
        intro c hcmem
        rw [show listJoinMap (changeContrib b2b) ((key, entry) :: rest) =
          changeContrib b2b (key, entry) ++ listJoinMap (changeContrib b2b) rest
          from rfl, hcontrib] at hcmem
        exact h2 c (by simpa using hcmem)
    · cases hb : dictGet key b2b with
      | none =>
        have hstep : changeStep b2b (p, cs, lg) (key, entry) = .ok (p, cs, lg) := by
          simp [changeStep, hkey, hb]
        rw [hstep, except_bind_ok] at h
        obtain ⟨hc, hl, hp⟩ := ih p cs lg p' cs' lg' h
        have hcontrib : changeContrib b2b (key, entry) = [] := by
          simp [changeContrib, hkey, hb]
        have hlontrib : logContrib b2b (key, entry) = [] := by
          simp [logContrib, hkey, hb]
        refine ⟨?_, ?_, ?_⟩
        · rw [hc]; simp [listJoinMap, hcontrib]
        · rw [hl]; simp [listJoinMap, hlontrib]
        · intro s hs hf
          obtain ⟨h1, h2⟩ := hp s hs hf
          refine ⟨h1, ?_⟩
          intro c hcmem
          rw [show listJoinMap (changeContrib b2b) ((key, entry) :: rest) =
            changeContrib b2b (key, entry) ++ listJoinMap (changeContrib b2b) rest
            from rfl, hcontrib] at hcmem
          exact h2 c (by simpa using hcmem)
      | some bd =>
        cases entry with
        | skuList ls =>
          have hstep : changeStep b2b (p, cs, lg) (key, .skuList ls) =
              .error "AttributeError" := by
            simp [changeStep, hkey, hb]
          rw [hstep, except_bind_err] at h
          cases h
        | record r =>
          cases hcs : r.current_stock with
          | none =>
            have hstep : changeStep b2b (p, cs, lg) (key, .record r) =
                .error "KeyError" := by
              simp [changeStep, hkey, hb, hcs]
            rw [hstep, except_bind_err] at h
            cases h
          | some vcs =>
            cases hcst : r.current_status with
            | none =>
              have hstep : changeStep b2b (p, cs, lg) (key, .record r) =
                  .error "KeyError" := by
                simp [changeStep, hkey, hb, hcs, hcst]
              rw [hstep, except_bind_err] at h
              cases h
            | some vcst =>
              by_cases hne : vcs ≠ bd.stock ∨ vcst ≠ bd.stock_status
              · have hstep : changeStep b2b (p, cs, lg) (key, .record r) =
                    .ok ((if r.sku.getD "" ≠ "" then
                            dictInsert (r.sku.getD "") true p else p),
                         cs ++ [⟨r.sku.getD "", r.ean.getD "", DEFAULT_MANAGE_STOCK,
                            bd.stock_status, bd.stock⟩],
                         lg ++ [⟨if r.sku.getD "" ≠ "" then some (r.sku.getD "")
                              else r.ean, vcs, bd.stock, vcst, bd.stock_status⟩]) := by
                  simp [changeStep, hkey, hb, hcs, hcst, hne]
                rw [hstep, except_bind_ok] at h
                obtain ⟨hc, hl, hp⟩ := ih _ _ _ p' cs' lg' h
                have hcontrib : changeContrib b2b (key, .record r) =
                    [⟨r.sku.getD "", r.ean.getD "", DEFAULT_MANAGE_STOCK,
                      bd.stock_status, bd.stock⟩] := by
                  simp [changeContrib, hkey, hb, hcs, hcst, hne]
                have hlontrib : logContrib b2b (key, .record r) =
                    [⟨if r.sku.getD "" ≠ "" then some (r.sku.getD "") else r.ean,
                      vcs, bd.stock, vcst, bd.stock_status⟩] := by
                  simp [logContrib, hkey, hb, hcs, hcst, hne]
                refine ⟨?_, ?_, ?_⟩
                · rw [hc]
                  rw [show listJoinMap (changeContrib b2b) ((key, .record r) :: rest) =
                    changeContrib b2b (key, .record r) ++
                      listJoinMap (changeContrib b2b) rest from rfl, hcontrib]
                  simp
                · rw [hl]
                  rw [show listJoinMap (logContrib b2b) ((key, .record r) :: rest) =
                    logContrib b2b (key, .record r) ++
                      listJoinMap (logContrib b2b) rest from rfl, hlontrib]
                  simp
                · intro s hs hf
                  obtain ⟨h1, h2⟩ := hp s hs hf
                  by_cases hsku : r.sku.getD "" ≠ ""
                  · rw [if_pos hsku] at h1
                    obtain ⟨hne', h1'⟩ := dictGet_false_of_insert_true _ _ _ h1
                    refine ⟨h1', ?_⟩
                    intro c hcmem
                    rw [show listJoinMap (changeContrib b2b) ((key, .record r) :: rest) =
                      changeContrib b2b (key, .record r) ++
                        listJoinMap (changeContrib b2b) rest from rfl, hcontrib] at hcmem
                    rcases List.mem_append.mp hcmem with hmem | hmem
                    · rcases List.mem_singleton.mp hmem with rfl
                      exact fun hcsku => hne' (hcsku ▸ rfl)
                    · exact h2 c hmem
                  · rw [if_neg hsku] at h1
                    refine ⟨h1, ?_⟩
                    intro c hcmem
                    rw [show listJoinMap (changeContrib b2b) ((key, .record r) :: rest) =
                      changeContrib b2b (key, .record r) ++
                        listJoinMap (changeContrib b2b) rest from rfl, hcontrib] at hcmem
                    rcases List.mem_append.mp hcmem with hmem | hmem
                    · rcases List.mem_singleton.mp hmem with rfl
                      simp only [not_not] at hsku
                      simp only [hsku]
                      exact fun hcsku => hs hcsku.symm
                    · exact h2 c hmem
              · have hstep : changeStep b2b (p, cs, lg) (key, .record r) =
                    .ok ((if r.sku.getD "" ≠ "" then
                            dictInsert (r.sku.getD "") true p else p), cs, lg) := by
                  simp [changeStep, hkey, hb, hcs, hcst, hne]
                rw [hstep, except_bind_ok] at h
                obtain ⟨hc, hl, hp⟩ := ih _ _ _ p' cs' lg' h
                have hcontrib : changeContrib b2b (key, .record r) = [] := by
                  simp [changeContrib, hkey, hb, hcs, hcst, hne]
                have hlontrib : logContrib b2b (key, .record r) = [] := by
                  simp [logContrib, hkey, hb, hcs, hcst, hne]
                refine ⟨?_, ?_, ?_⟩
                · rw [hc]
                  rw [show listJoinMap (changeContrib b2b) ((key, .record r) :: rest) =
                    changeContrib b2b (key, .record r) ++
                      listJoinMap (changeContrib b2b) rest from rfl, hcontrib]
                  simp
                · rw [hl]
                  rw [show listJoinMap (logContrib b2b) ((key, .record r) :: rest) =
                    logContrib b2b (key, .record r) ++
                      listJoinMap (logContrib b2b) rest from rfl, hlontrib]
                  simp
                · intro s hs hf
                  obtain ⟨h1, h2⟩ := hp s hs hf
                  have h1' : dictGet s p = some false := by
                    by_cases hsku : r.sku.getD "" ≠ ""
                    · rw [if_pos hsku] at h1
                      exact (dictGet_false_of_insert_true _ _ _ h1).2
                    · rwa [if_neg hsku] at h1
                  refine ⟨h1', ?_⟩
                  intro c hcmem
                  rw [show listJoinMap (changeContrib b2b) ((key, .record r) :: rest) =
                    changeContrib b2b (key, .record r) ++
                      listJoinMap (changeContrib b2b) rest from rfl, hcontrib] at hcmem
                  exact h2 c (by simpa using hcmem)

/-- The retention search agrees with `List.find?` over the carry predicate. -/
theorem findRetention_char (s : String) (woo : AList WooEntry) :
    ∀ o : Option ChangeRec, findRetention s woo = .ok o →
    (match woo.find? (carriesSku s) with
     | some kv => ∃ r, kv.2 = WooEntry.record r ∧ o = some (mkRetention s r)
     | none => o = none) := by
  induction woo with
  | nil =>
    intro o h
    simp only [findRetention, Except.ok.injEq] at h
    simpa using h.symm
  | cons kv rest ih =>
    intro o h
    obtain ⟨key, entry⟩ := kv
    by_cases hkey : key = "_all_skus"
    · have hpred : ¬ carriesSku s (key, entry) = true := by
        simp [carriesSku, hkey]
      rw [List.find?_cons_of_neg _ hpred]
      rw [show findRetention s ((key, entry) :: rest) = findRetention s rest from by
        simp [findRetention, hkey]] at h
      exact ih o h
    · cases entry with
      | skuList ls =>
        rw [show findRetention s ((key, .skuList ls) :: rest) =
          .error "AttributeError" from by simp [findRetention, hkey]] at h
        cases h
      | record r =>
        by_cases hr : r.sku = some s
        · have hpred : carriesSku s (key, .record r) = true := by
            simp [carriesSku, hkey, entrySku, hr]
          rw [List.find?_cons_of_pos _ hpred]
          rw [show findRetention s ((key, .record r) :: rest) =
            .ok (some (mkRetention s r)) from by simp [findRetention, hkey, hr]] at h
          obtain rfl := (Except.ok.inj h).symm
          exact ⟨r, rfl, rfl⟩
        · have hpred : ¬ carriesSku s (key, .record r) = true := by
            simp [carriesSku, hkey, entrySku, hr]
          rw [List.find?_cons_of_neg _ hpred]
          rw [show findRetention s ((key, .record r) :: rest) =
            findRetention s rest from by simp [findRetention, hkey, hr]] at h
          exact ih o h

/-- Characterization of the retention pass: under success it returns exactly
the concatenated per-marker contributions. -/
theorem retentionLoop_characterization (woo : AList WooEntry) :
    ∀ (p : AList Bool) (rets : List ChangeRec), retentionLoop woo p = .ok rets →
    rets = listJoinMap (retContrib woo) p := by
  intro p
  induction p with
  | nil =>
    intro rets h
    simp only [retentionLoop, Except.ok.injEq] at h
    simp [listJoinMap, ← h]
  | cons sb rest ih =>
    intro rets h
    obtain ⟨sku, b⟩ := sb
    cases b with
    | true =>
      rw [show retentionLoop woo ((sku, true) :: rest) = retentionLoop woo rest
        from by simp [retentionLoop]] at h
      rw [show listJoinMap (retContrib woo) ((sku, true) :: rest) =
        retContrib woo (sku, true) ++ listJoinMap (retContrib woo) rest from rfl]
      rw [show retContrib woo (sku, true) = [] from by simp [retContrib]]
      simpa using ih rets h
    | false =>
      rw [show retentionLoop woo ((sku, false) :: rest) =
        (findRetention sku woo >>= fun c =>
          retentionLoop woo rest >>= fun rest' => .ok (c.toList ++ rest'))
        from by simp [retentionLoop]] at h
      cases hf : findRetention sku woo with
      | error e => rw [hf, except_bind_err] at h; cases h
      | ok o =>
        rw [hf, except_bind_ok] at h
        cases hrl : retentionLoop woo rest with
        | error e => rw [hrl, except_bind_err] at h; cases h
        | ok rest' =>
          rw [hrl, except_bind_ok] at h
          obtain rfl := (Except.ok.inj h).symm
          have hfc := findRetention_char sku woo o hf
          rw [show listJoinMap (retContrib woo) ((sku, false) :: rest) =
            retContrib woo (sku, false) ++ listJoinMap (retContrib woo) rest from rfl]
          rw [← ih rest' hrl]
          congr 1
          cases hfind : woo.find? (carriesSku sku) with
          | none =>
            rw [hfind] at hfc
            subst hfc
            simp [retContrib, hfind]
          | some kv =>
            rw [hfind] at hfc
            obtain ⟨r, hkv, rfl⟩ := hfc
            obtain ⟨k₀, e₀⟩ := kv
            simp only at hkv
            subst hkv
            simp [retContrib, hfind]

/-- The change pass preserves uniqueness of keys in the processed-markers
dict. -/
theorem changePassRun_keysNodup (b2b : AList B2BRecord) (woo : AList WooEntry) :
    ∀ p cs lg p' cs' lg',
    changePassRun b2b woo (p, cs, lg) = .ok (p', cs', lg') →
    KeysNodup p → KeysNodup p' := by
  induction woo with
  | nil =>
    intro p cs lg p' cs' lg' h hn
    rw [changePassRun_nil] at h
    simp only [Except.ok.injEq, Prod.mk.injEq] at h
    obtain ⟨rfl, -, -⟩ := h
    exact hn
  | cons kv rest ih =>
    intro p cs lg p' cs' lg' h hn
    obtain ⟨key, entry⟩ := kv
    rw [changePassRun_cons] at h
    cases hstep : changeStep b2b (p, cs, lg) (key, entry) with
    | error e => rw [hstep, except_bind_err] at h; cases h
    | ok st₁ =>
      rw [hstep, except_bind_ok] at h
      obtain ⟨p₁, cs₁, lg₁⟩ := st₁
      have hp₁ : p₁ = p ∨ ∃ t, p₁ = dictInsert t true p := by
        by_cases hkey : key = "_all_skus"
        · rw [show changeStep b2b (p, cs, lg) (key, entry) = .ok (p, cs, lg)
            from by simp [changeStep, hkey]] at hstep
          obtain ⟨rfl, -, -⟩ : p = p₁ ∧ cs = cs₁ ∧ lg = lg₁ := by
            simpa [Prod.mk.injEq] using Except.ok.inj hstep
          exact .inl rfl
        · cases hb : dictGet key b2b with
          | none =>
            rw [show changeStep b2b (p, cs, lg) (key, entry) = .ok (p, cs, lg)
              from by simp [changeStep, hkey, hb]] at hstep
            obtain ⟨rfl, -, -⟩ : p = p₁ ∧ cs = cs₁ ∧ lg = lg₁ := by
              simpa [Prod.mk.injEq] using Except.ok.inj hstep
            exact .inl rfl
          | some bd =>
            cases entry with
            | skuList ls =>
              rw [show changeStep b2b (p, cs, lg) (key, .skuList ls) =
                .error "AttributeError" from by simp [changeStep, hkey, hb]] at hstep
              cases hstep
            | record r =>
              cases hcs : r.current_stock with
              | none =>
                rw [show changeStep b2b (p, cs, lg) (key, .record r) =
                  .error "KeyError" from by simp [changeStep, hkey, hb, hcs]] at hstep
                cases hstep
              | some vcs =>
                cases hcst : r.current_status with
                | none =>
                  rw [show changeStep b2b (p, cs, lg) (key, .record r) =
                    .error "KeyError" from by
                      simp [changeStep, hkey, hb, hcs, hcst]] at hstep
                  cases hstep
                | some vcst =>
                  by_cases hsku : r.sku.getD "" ≠ ""
                  · by_cases hne : vcs ≠ bd.stock ∨ vcst ≠ bd.stock_status
                    · rw [show changeStep b2b (p, cs, lg) (key, .record r) =
                        .ok (dictInsert (r.sku.getD "") true p,
                          cs ++ [⟨r.sku.getD "", r.ean.getD "", DEFAULT_MANAGE_STOCK,
                            bd.stock_status, bd.stock⟩],
                          lg ++ [⟨if r.sku.getD "" ≠ "" then some (r.sku.getD "")
                            else r.ean, vcs, bd.stock, vcst, bd.stock_status⟩]) from by
                          simp [changeStep, hkey, hb, hcs, hcst, hne, hsku]] at hstep
                      obtain ⟨hp, -, -⟩ : dictInsert (r.sku.getD "") true p = p₁ ∧ _ ∧ _ := by
                        simpa [Prod.mk.injEq] using Except.ok.inj hstep
                      exact .inr ⟨_, hp.symm⟩
                    · rw [show changeStep b2b (p, cs, lg) (key, .record r) =
                        .ok (dictInsert (r.sku.getD "") true p, cs, lg) from by
                          simp [changeStep, hkey, hb, hcs, hcst, hne, hsku]] at hstep
                      obtain ⟨hp, -, -⟩ : dictInsert (r.sku.getD "") true p = p₁ ∧ _ ∧ _ := by
                        simpa [Prod.mk.injEq] using Except.ok.inj hstep
                      exact .inr ⟨_, hp.symm⟩
                  · by_cases hne : vcs ≠ bd.stock ∨ vcst ≠ bd.stock_status
                    · rw [show changeStep b2b (p, cs, lg) (key, .record r) =
                        .ok (p,
                          cs ++ [⟨r.sku.getD "", r.ean.getD "", DEFAULT_MANAGE_STOCK,
                            bd.stock_status, bd.stock⟩],
                          lg ++ [⟨if r.sku.getD "" ≠ "" then some (r.sku.getD "")
                            else r.ean, vcs, bd.stock, vcst, bd.stock_status⟩]) from by
                          simp [changeStep, hkey, hb, hcs, hcst, hne, hsku]] at hstep
                      obtain ⟨hp, -, -⟩ : p = p₁ ∧ _ ∧ _ := by
                        simpa [Prod.mk.injEq] using Except.ok.inj hstep
                      exact .inl hp.symm
                    · rw [show changeStep b2b (p, cs, lg) (key, .record r) =
                        .ok (p, cs, lg) from by
                          simp [changeStep, hkey, hb, hcs, hcst, hne, hsku]] at hstep
                      obtain ⟨hp, -, -⟩ : p = p₁ ∧ _ ∧ _ := by
                        simpa [Prod.mk.injEq] using Except.ok.inj hstep
                      exact .inl hp.symm
      rcases hp₁ with rfl | ⟨t, rfl⟩
      · exact ih _ _ _ _ _ _ h hn
      · exact ih _ _ _ _ _ _ h (keysNodup_dictInsert _ _ _ hn)

theorem dictGet_initProcessed_aux (skus : List String) :
    ∀ (d : AList Bool) (s : String),
    dictGet s (skus.foldl (fun d s' => dictInsert s' false d) d) =
      if s ∈ skus then some false else dictGet s d := by
  induction skus with
  | nil => intro d s; simp
  | cons a rest ih =>
    intro d s
    rw [List.foldl_cons, ih]
    by_cases hm : s ∈ rest
    · simp [hm]
    · by_cases hsa : s = a
      · subst hsa
        simp [hm, dictGet_dictInsert_self]
      · rw [dictGet_dictInsert_ne _ _ _ _ hsa]
        simp [hm, hsa]

theorem dictGet_initProcessed (skus : List String) (s : String) :
    dictGet s (initProcessed skus) = if s ∈ skus then some false else none := by
  rw [initProcessed, dictGet_initProcessed_aux]
  simp [dictGet]

theorem keysNodup_initProcessed_aux (skus : List String) :
    ∀ d : AList Bool, KeysNodup d →
    KeysNodup (skus.foldl (fun d s' => dictInsert s' false d) d) := by
  induction skus with
  | nil => intro d hd; simpa using hd
  | cons a rest ih =>
    intro d hd
    rw [List.foldl_cons]
    exact ih _ (keysNodup_dictInsert _ _ _ hd)

theorem keysNodup_initProcessed (skus : List String) :
    KeysNodup (initProcessed skus) :=
  keysNodup_initProcessed_aux skus [] keysNodup_nil

/-- Splitting a successful `detect_changes` run into its two passes. -/
theorem detect_changes_decomposition (b2b : AList B2BRecord) (woo : AList WooEntry)
    (p : AList Bool) (cs : List ChangeRec) (lg : List LogEntry)
    (out : List ChangeRec) (lgout : List LogEntry)
    (h1 : changePassRun b2b woo (initProcessed (universeOf woo), [], []) = .ok (p, cs, lg))
    (h2 : detect_changes b2b woo = .ok (out, lgout)) :
    ∃ rets, retentionLoop woo p = .ok rets ∧ out = cs ++ rets ∧ lgout = lg := by
  unfold detect_changes at h2
  rw [h1, except_bind_ok] at h2
  have h3 : (retentionLoop woo p >>= fun rets =>
      (Except.ok (cs ++ rets, lg) : Except String (List ChangeRec × List LogEntry))) =
      .ok (out, lgout) := h2
  cases hr : retentionLoop woo p with
  | error e =>
    rw [hr, except_bind_err] at h3
    cases h3
  | ok rets =>
    rw [hr, except_bind_ok] at h3
    simp only [Except.ok.injEq, Prod.mk.injEq] at h3
    exact ⟨rets, rfl, h3.1.symm, h3.2.symm⟩

theorem foldlM_parse_nil (acc : AList B2BRecord) :
    List.foldlM parseProduct acc [] = .ok acc := rfl

theorem foldlM_parse_cons (acc : AList B2BRecord) (p : FeedProduct)
    (feed : List FeedProduct) :
    List.foldlM parseProduct acc (p :: feed) =
      parseProduct acc p >>= fun acc' => List.foldlM parseProduct acc' feed := rfl

/-! ## Claim C2 -/

/-- Claim C2 counterexample: a feed item with quantity `"-3"` parses without
error into records whose stock is `-3` — negative, not the claimed
non-negative `0` — and a feed item with the unparsable quantity `"x"` makes
the normalizer raise rather than coerce to `0`. -/
theorem parse_b2b_feed_negative_not_coerced :
    parse_b2b_feed exFeedNeg =
      .ok [("ean_E", ⟨"variation", none, some "E", -3, "outofstock"⟩),
           ("sku_A", ⟨"parent", some "A", none, -3, "outofstock"⟩)] ∧
    ((-3 : Int) ≠ 0 ∧ ¬ (0 : Int) ≤ -3) ∧
    parse_b2b_feed exFeedBad = .error "invalid literal for int()" :=
  ⟨rfl, by decide, rfl⟩

/-- Claim C2 (amended): in the feed normalizer a *missing* quantity attribute
defaults to `0` without error, but a present quantity — blank included — goes
through `int(...)`, so a blank or otherwise unparsable quantity raises a fatal
error; in the export normalizer a missing stock column or exactly-empty cell
defaults to `0`, and any other unparsable cell (whitespace-only included)
raises.  A parsable quantity keeps its sign and value (the export normalizer
truncating toward zero): negative quantities are not coerced to `0`. -/
theorem quantity_field_behavior :
    (∀ s n, pyParseInt s = some n →
      parse_b2b_feed [⟨some "A", some [⟨some s, some "E"⟩]⟩] =
        .ok [("ean_E", ⟨"variation", none, some "E", n, statusOf n⟩),
             ("sku_A", ⟨"parent", some "A", none, n, statusOf n⟩)]) ∧
    (∀ s, pyParseInt s = none →
      parse_b2b_feed [⟨some "A", some [⟨some s, some "E"⟩]⟩] =
        .error "invalid literal for int()") ∧
    (parse_b2b_feed [⟨some "A", some [⟨none, some "E"⟩]⟩] =
      .ok [("ean_E", ⟨"variation", none, some "E", 0, statusOf 0⟩),
           ("sku_A", ⟨"parent", some "A", none, 0, statusOf 0⟩)]) ∧
    (∀ s n, s ≠ "" → pyFloatTrunc s = some n →
      load_woo_export [⟨some "A", none, none, some s, some "instock"⟩] =
        .ok [("sku_A", .record ⟨some "A", none, some n, some "instock", "parent", none⟩),
             ("_all_skus", .skuList ["A"])]) ∧
    (∀ s, s ≠ "" → pyFloatTrunc s = none →
      load_woo_export [⟨some "A", none, none, some s, some "instock"⟩] =
        .error "could not convert string to float") ∧
    (load_woo_export [⟨some "A", none, none, some "", some "instock"⟩] =
      .ok [("sku_A", .record ⟨some "A", none, some 0, some "instock", "parent", none⟩),
           ("_all_skus", .skuList ["A"])]) ∧
    (load_woo_export [⟨some "A", none, none, none, some "instock"⟩] =
      .ok [("sku_A", .record ⟨some "A", none, some 0, some "instock", "parent", none⟩),
           ("_all_skus", .skuList ["A"])]) := by
  refine ⟨?_, ?_, ?_, ?_, ?_, ?_, ?_⟩
  · intro s n h
    simp [parse_b2b_feed, List.foldlM, parseProduct, parseItems, parseQty, h,
      pyStripS, pyStripL, dictInsert, except_bind_ok]
  · intro s h
    simp [parse_b2b_feed, List.foldlM, parseProduct, parseItems, parseQty, h,
      pyStripS, pyStripL, dictInsert, except_bind_ok]
    exact except_bind_err _ _
  · rfl
  · intro s n hs h
    simp [load_woo_export, loadRows, processRow, parseStockField, hs, h,
      skuTracked, addSku, dictInsert, pyStripS, pyStripL, normalizeEan,
      except_bind_ok]
  · intro s hs h
    simp [load_woo_export, loadRows, processRow, parseStockField, hs, h,
      skuTracked, addSku, dictInsert, pyStripS, pyStripL, normalizeEan,
      except_bind_ok]
    exact except_bind_err _ _
  · rfl
  · rfl

/-- Claim C2 witness: instantiated at the quantity strings `"-3"` (feed) and
`"-3.5"` (export), whose parses are `-3`, preserved with their sign. -/
theorem quantity_field_behavior_witness :
    parse_b2b_feed [⟨some "A", some [⟨some "-3", some "E"⟩]⟩] =
      .ok [("ean_E", ⟨"variation", none, some "E", -3, statusOf (-3)⟩),
           ("sku_A", ⟨"parent", some "A", none, -3, statusOf (-3)⟩)] ∧
    load_woo_export [⟨some "A", none, none, some "-3.5", some "instock"⟩] =
      .ok [("sku_A", .record ⟨some "A", none, some (-3), some "instock", "parent", none⟩),
           ("_all_skus", .skuList ["A"])] :=
  ⟨quantity_field_behavior.1 "-3" (-3) rfl,
   quantity_field_behavior.2.2.2.1 "-3.5" (-3) (by decide) rfl⟩

/-! ## Claim C5 -/

theorem length_dropWhile_le_self (q : Char → Bool) (l : List Char) :
    (l.dropWhile q).length ≤ l.length := by
  induction l with
  | nil => simp
  | cons c t ih =>
    by_cases hq : q c
    · rw [List.dropWhile_cons_of_pos hq]
      exact Nat.le_succ_of_le ih
    · rw [List.dropWhile_cons_of_neg hq]

theorem dropWhile_self_or_lt (q : Char → Bool) (l : List Char) :
    l.dropWhile q = l ∨ (l.dropWhile q).length < l.length := by
  cases l with
  | nil => exact .inl rfl
  | cons c t =>
    by_cases hq : q c
    · right
      rw [List.dropWhile_cons_of_pos hq]
      calc (t.dropWhile q).length ≤ t.length := length_dropWhile_le_self q t
        _ < (c :: t).length := by simp
    · exact .inl (List.dropWhile_cons_of_neg hq)

theorem dropWhile_eq_self_of_strip (l : List Char) (h : pyStripL l = l) :
    l.dropWhile Char.isWhitespace = l := by
  rcases dropWhile_self_or_lt Char.isWhitespace l with h1 | h1
  · exact h1
  · exfalso
    have hlen : (pyStripL l).length ≤ (l.dropWhile Char.isWhitespace).length := by
      unfold pyStripL
      rw [List.length_reverse]
      calc (List.dropWhile Char.isWhitespace
              (l.dropWhile Char.isWhitespace).reverse).length
          ≤ (l.dropWhile Char.isWhitespace).reverse.length :=
            length_dropWhile_le_self _ _
        _ = (l.dropWhile Char.isWhitespace).length := by
            rw [List.length_reverse]
    rw [h] at hlen
    omega

theorem pyStripL_append_dot0 (l : List Char) (h : pyStripL l = l) :
    pyStripL (l ++ ['.', '0']) = l ++ ['.', '0'] := by
  have hd : (l ++ ['.', '0']).dropWhile Char.isWhitespace = l ++ ['.', '0'] := by
    cases l with
    | nil => decide
    | cons c t =>
      have hdw := dropWhile_eq_self_of_strip _ h
      by_cases hc : Char.isWhitespace c
      · exfalso
        rw [List.dropWhile_cons_of_pos hc] at hdw
        have hlen := congrArg List.length hdw
        have hle := length_dropWhile_le_self Char.isWhitespace t
        simp at hlen
        omega
      · rw [List.cons_append, List.dropWhile_cons_of_neg hc]
  unfold pyStripL
  rw [hd, List.reverse_append]
  rw [show (['.', '0'] : List Char).reverse = ['0', '.'] from rfl]
  rw [show (['0', '.'] ++ l.reverse : List Char) = '0' :: '.' :: l.reverse from rfl]
  rw [List.dropWhile_cons_of_neg (by decide)]
  simp

theorem stripDot0L_append (l : List Char) : stripDot0L (l ++ ['.', '0']) = l := by
  unfold stripDot0L
  rw [List.reverse_append]
  rw [show (['.', '0'] : List Char).reverse = ['0', '.'] from rfl]
  rw [show (['0', '.'] ++ l.reverse : List Char) = '0' :: '.' :: l.reverse from rfl]
  simp

theorem stripDot0L_eq_self (l : List Char) (h : endsDot0 l = false) :
    stripDot0L l = l := by
  unfold stripDot0L
  unfold endsDot0 at h
  split
  · rename_i rest heq
    rw [heq] at h
    simp at h
  · rfl

/-- Claim C5 counterexample: the supplier feed normalizer does not strip the
trailing `.0` artifact — a feed EAN `"123456.0"` yields the key
`ean_123456.0`, with nothing stored at `ean_123456`, while the export
normalizer maps the same text to `123456`.  The claimed invariance therefore
fails for the feed-side key construction. -/
theorem feed_key_keeps_dot0 :
    parse_b2b_feed exFeedDot0 =
      .ok [("ean_123456.0", ⟨"variation", none, some "123456.0", 5, "instock"⟩),
           ("sku_A", ⟨"parent", some "A", none, 5, "instock"⟩)] ∧
    dictGet "ean_123456"
      ([("ean_123456.0", ⟨"variation", none, some "123456.0", 5, "instock"⟩),
        ("sku_A", ⟨"parent", some "A", none, 5, "instock"⟩)] : AList B2BRecord) = none ∧
    normalizeEan "123456.0" = "123456" :=
  ⟨rfl, rfl, rfl⟩

/-- Claim C5 (amended): only the inventory export normalizer strips a trailing
`.0` (one occurrence) before building the `ean_` key: for every EAN string
that is already stripped and does not itself end in `.0`, normalizing `e` and
`e ++ ".0"` through the export normalizer yields the same text `e`, hence the
same key.  The feed normalizer uses the stripped EAN verbatim (see the
counterexample). -/
theorem normalizeEan_append_dot0 (e : String)
    (h1 : pyStripL e.data = e.data) (h2 : endsDot0 e.data = false) :
    normalizeEan (e ++ ".0") = normalizeEan e ∧ normalizeEan (e ++ ".0") = e := by
  have hdata : (e ++ ".0").data = e.data ++ ['.', '0'] := rfl
  have hA : normalizeEan (e ++ ".0") = e := by
    unfold normalizeEan
    rw [hdata, pyStripL_append_dot0 _ h1, stripDot0L_append]
  have hB : normalizeEan e = e := by
    unfold normalizeEan
    rw [h1, stripDot0L_eq_self _ h2]
  exact ⟨by rw [hA, hB], hA⟩

/-- Claim C5 witness: the amended statement at the EAN `"123456"`. -/
theorem normalizeEan_append_dot0_witness :
    normalizeEan ("123456" ++ ".0") = normalizeEan "123456" ∧
    normalizeEan ("123456" ++ ".0") = "123456" :=
  normalizeEan_append_dot0 "123456" rfl rfl

/-! ## Claim C4 -/

/-- Claim C4: the change pass is exactly the concatenation of per-entry
contributions, and for every key present in both mappings with a well-formed
record, the contribution is one change record carrying the supplier's
quantity/availability plus one audit entry recording old/new values when the
export pair differs from the supplier pair, and nothing when they coincide. -/
theorem change_pass_emits_iff_differs (b2b : AList B2BRecord) (woo : AList WooEntry)
    (p : AList Bool) (cs : List ChangeRec) (lg : List LogEntry)
    (h : changePassRun b2b woo (initProcessed (universeOf woo), [], []) =
      .ok (p, cs, lg)) :
    cs = listJoinMap (changeContrib b2b) woo ∧
    lg = listJoinMap (logContrib b2b) woo ∧
    ∀ (key : String) (r : WooRecord) (bd : B2BRecord) (vcs : Int) (vcst : String),
      key ≠ "_all_skus" → dictGet key b2b = some bd →
      r.current_stock = some vcs → r.current_status = some vcst →
      changeContrib b2b (key, .record r) =
        (if vcs ≠ bd.stock ∨ vcst ≠ bd.stock_status then
          [⟨r.sku.getD "", r.ean.getD "", DEFAULT_MANAGE_STOCK,
            bd.stock_status, bd.stock⟩]
         else []) ∧
      logContrib b2b (key, .record r) =
        (if vcs ≠ bd.stock ∨ vcst ≠ bd.stock_status then
          [⟨if r.sku.getD "" ≠ "" then some (r.sku.getD "") else r.ean,
            vcs, bd.stock, vcst, bd.stock_status⟩]
         else []) := by
  obtain ⟨hc, hl, -⟩ := changePassRun_characterization b2b woo _ _ _ _ _ _ h
  refine ⟨by simpa using hc, by simpa using hl, ?_⟩
  intro key r bd vcs vcst hkey hb hcs hcst
  constructor
  · simp [changeContrib, hkey, hb, hcs, hcst]
  · simp [logContrib, hkey, hb, hcs, hcst]

/-- Claim C4 witness: the specification's change-correctness example — export
record `(5, instock)` against supplier record `(0, outofstock)` for the key
`sku_A` yields exactly one change record `(stock 0, outofstock)` and one audit
entry `5 → 0, instock → outofstock`. -/
theorem change_pass_emits_iff_differs_witness :
    ([⟨"A", "", "yes", "outofstock", 0⟩] : List ChangeRec) =
      listJoinMap (changeContrib exB2BZero) exWooEq ∧
    ([⟨some "A", 5, 0, "instock", "outofstock"⟩] : List LogEntry) =
      listJoinMap (logContrib exB2BZero) exWooEq ∧
    ∀ (key : String) (r : WooRecord) (bd : B2BRecord) (vcs : Int) (vcst : String),
      key ≠ "_all_skus" → dictGet key exB2BZero = some bd →
      r.current_stock = some vcs → r.current_status = some vcst →
      changeContrib exB2BZero (key, .record r) =
        (if vcs ≠ bd.stock ∨ vcst ≠ bd.stock_status then
          [⟨r.sku.getD "", r.ean.getD "", DEFAULT_MANAGE_STOCK,
            bd.stock_status, bd.stock⟩]
         else []) ∧
      logContrib exB2BZero (key, .record r) =
        (if vcs ≠ bd.stock ∨ vcst ≠ bd.stock_status then
          [⟨if r.sku.getD "" ≠ "" then some (r.sku.getD "") else r.ean,
            vcs, bd.stock, vcst, bd.stock_status⟩]
         else []) :=
  change_pass_emits_iff_differs exB2BZero exWooEq
    [("A", true)] [⟨"A", "", "yes", "outofstock", 0⟩]
    [⟨some "A", 5, 0, "instock", "outofstock"⟩] rfl

/-! ## Structural lemmas about `load_woo_export` -/

theorem mem_addSku (a s : String) (l : List String) :
    a ∈ addSku s l ↔ a = s ∨ a ∈ l := by
  unfold addSku
  by_cases h : s ∈ l
  · rw [if_pos h]
    constructor
    · exact .inr
    · rintro (rfl | ha)
      · exact h
      · exact ha
  · rw [if_neg h]
    simp [or_comm]

theorem nodup_addSku (s : String) (l : List String) (h : l.Nodup) :
    (addSku s l).Nodup := by
  unfold addSku
  by_cases hm : s ∈ l
  · simpa [hm]
  · rw [if_neg hm]
    refine List.Nodup.append h (List.nodup_singleton s) ?_
    intro a ha hb
    simp only [List.mem_singleton] at hb
    subst hb
    exact hm ha

/-- Shape of one row-processing step: the universe accumulator grows exactly
by the tracked SKU, and the keyed mapping grows by at most one well-formed,
properly-keyed record. -/
theorem processRow_shape (products : AList WooEntry) (skus : List String)
    (row : WooRow) (p' : AList WooEntry) (s' : List String)
    (h : processRow products skus row = .ok (p', s')) :
    (s' = match skuTracked row with
          | some s => addSku s skus
          | none => skus) ∧
    (p' = products ∨ ∃ x r, (r.current_stock ≠ none ∧ r.current_status ≠ none) ∧
      (p' = dictInsert ("sku_" ++ x) (.record r) products ∨
       p' = dictInsert ("ean_" ++ x) (.record r) products)) := by
  unfold processRow at h
  by_cases hc1 : pyStripS (row.sku.getD "") ≠ "" ∧
      (row.post_parent.getD "" = "" ∨ row.post_parent = some "0")
  · rw [if_pos hc1] at h
    cases hst : parseStockField row.stock with
    | error e =>
      rw [hst, except_bind_err] at h
      cases h
    | ok n =>
      rw [hst, except_bind_ok] at h
      simp only [Except.ok.injEq, Prod.mk.injEq] at h
      obtain ⟨hp, hs⟩ := h
      refine ⟨hs.symm, .inr ⟨pyStripS (row.sku.getD ""), _, ⟨by simp, by simp⟩,
        .inl hp.symm⟩⟩
  · rw [if_neg hc1] at h
    by_cases hc2 : pyStripS (row.ean.getD "") ≠ "" ∧
        pyStripS (row.post_parent.getD "") ≠ ""
    · rw [if_pos hc2] at h
      cases hst : parseStockField row.stock with
      | error e =>
        rw [hst, except_bind_err] at h
        cases h
      | ok n =>
        rw [hst, except_bind_ok] at h
        simp only [Except.ok.injEq, Prod.mk.injEq] at h
        obtain ⟨hp, hs⟩ := h
        refine ⟨hs.symm, .inr ⟨normalizeEan (row.ean.getD ""), _, ⟨by simp, by simp⟩,
          .inr hp.symm⟩⟩
    · rw [if_neg hc2] at h
      simp only [Except.ok.injEq, Prod.mk.injEq] at h
      exact ⟨h.2.symm, .inl h.1.symm⟩

theorem loadRows_nil_eq (products : AList WooEntry) (skus : List String) :
    loadRows [] products skus = .ok (products, skus) := rfl

theorem loadRows_cons_eq (row : WooRow) (rest : List WooRow)
    (products : AList WooEntry) (skus : List String) :
    loadRows (row :: rest) products skus =
      processRow products skus row >>= fun ps => loadRows rest ps.1 ps.2 := by
  cases hp : processRow products skus row with
  | error e => simp [loadRows, hp, except_bind_err]
  | ok ps =>
    obtain ⟨a, b⟩ := ps
    simp [loadRows, hp, except_bind_ok]

/-- The universe accumulator of the row loop: membership characterization and
distinctness. -/
theorem loadRows_universe : ∀ (rows : List WooRow) (products : AList WooEntry)
    (skus : List String) products' skus',
    loadRows rows products skus = .ok (products', skus') →
    (∀ s, s ∈ skus' ↔ s ∈ skus ∨ ∃ row ∈ rows, skuTracked row = some s) ∧
    (skus.Nodup → skus'.Nodup) := by
  intro rows
  induction rows with
  | nil =>
    intro products skus products' skus' h
    rw [loadRows_nil_eq] at h
    simp only [Except.ok.injEq, Prod.mk.injEq] at h
    obtain ⟨-, rfl⟩ := h
    simp
  | cons row rest ih =>
    intro products skus products' skus' h
    rw [loadRows_cons_eq] at h
    cases hp : processRow products skus row with
    | error e =>
      rw [hp, except_bind_err] at h
      cases h
    | ok ps =>
      rw [hp, except_bind_ok] at h
      obtain ⟨p₁, s₁⟩ := ps
      obtain ⟨hs₁, -⟩ := processRow_shape _ _ _ _ _ hp
      obtain ⟨hmem, hnd⟩ := ih _ _ _ _ h
      constructor
      · intro s
        rw [hmem s]
        cases htr : skuTracked row with
        | none =>
          rw [htr] at hs₁
          subst hs₁
          simp only [List.mem_cons]
          constructor
          · rintro (hl | ⟨r', hr', htr'⟩)
            · exact .inl hl
            · exact .inr ⟨r', .inr hr', htr'⟩
          · rintro (hl | ⟨r', (rfl | hr'), htr'⟩)
            · exact .inl hl
            · rw [htr] at htr'; cases htr'
            · exact .inr ⟨r', hr', htr'⟩
        | some s₀ =>
          rw [htr] at hs₁
          subst hs₁
          rw [mem_addSku]
          simp only [List.mem_cons]
          constructor
          · rintro ((rfl | hl) | ⟨r', hr', htr'⟩)
            · exact .inr ⟨row, .inl rfl, htr⟩
            · exact .inl hl
            · exact .inr ⟨r', .inr hr', htr'⟩
          · rintro (hl | ⟨r', (rfl | hr'), htr'⟩)
            · exact .inl (.inr hl)
            · rw [htr] at htr'
              exact .inl (.inl (Option.some.inj htr').symm)
            · exact .inr ⟨r', hr', htr'⟩
      · intro hnd0
        apply hnd
        cases htr : skuTracked row with
        | none => rw [htr] at hs₁; subst hs₁; exact hnd0
        | some s₀ => rw [htr] at hs₁; subst hs₁; exact nodup_addSku _ _ hnd0

/-- The keyed part of the export mapping stays well-formed through the row
loop. -/
theorem loadRows_wf : ∀ (rows : List WooRow) (products : AList WooEntry)
    (skus : List String) products' skus',
    loadRows rows products skus = .ok (products', skus') →
    wfProducts products → wfProducts products' := by
  intro rows
  induction rows with
  | nil =>
    intro products skus products' skus' h hwf
    rw [loadRows_nil_eq] at h
    simp only [Except.ok.injEq, Prod.mk.injEq] at h
    obtain ⟨rfl, -⟩ := h
    exact hwf
  | cons row rest ih =>
    intro products skus products' skus' h hwf
    rw [loadRows_cons_eq] at h
    cases hp : processRow products skus row with
    | error e =>
      rw [hp, except_bind_err] at h
      cases h
    | ok ps =>
      rw [hp, except_bind_ok] at h
      obtain ⟨p₁, s₁⟩ := ps
      obtain ⟨-, hshape⟩ := processRow_shape _ _ _ _ _ hp
      refine ih _ _ _ _ h ?_
      rcases hshape with rfl | ⟨x, r, ⟨hr1, hr2⟩, hins⟩
      · exact hwf
      · intro kv hkv
        rcases hins with rfl | rfl
        · rcases mem_dictInsert _ _ _ _ hkv with rfl | hkv'
          · exact ⟨⟨sku_key_ne_reserved x, x, .inl rfl⟩, r, rfl, hr1, hr2⟩
          · exact hwf kv hkv'
        · rcases mem_dictInsert _ _ _ _ hkv with rfl | hkv'
          · exact ⟨⟨ean_key_ne_reserved x, x, .inr rfl⟩, r, rfl, hr1, hr2⟩
          · exact hwf kv hkv'

/-- Splitting a successful `load_woo_export` into the row loop and the final
reserved-key insertion. -/
theorem load_woo_export_split (rows : List WooRow) (m : AList WooEntry)
    (h : load_woo_export rows = .ok m) :
    ∃ products skus, loadRows rows [] [] = .ok (products, skus) ∧
      m = dictInsert "_all_skus" (.skuList skus) products := by
  unfold load_woo_export at h
  cases hl : loadRows rows [] [] with
  | error e =>
    rw [hl, except_bind_err] at h
    cases h
  | ok ps =>
    obtain ⟨products, skus⟩ := ps
    rw [hl, except_bind_ok] at h
    exact ⟨products, skus, rfl, (Except.ok.inj h).symm⟩

/-- The universe `detect_changes` reads is exactly the row loop's SKU
accumulator. -/
theorem universeOf_load (rows : List WooRow) (m : AList WooEntry)
    (products : AList WooEntry) (skus : List String)
    (_hl : loadRows rows [] [] = .ok (products, skus))
    (hm : m = dictInsert "_all_skus" (.skuList skus) products) :
    universeOf m = skus := by
  subst hm
  unfold universeOf
  rw [dictGet_dictInsert_self]

/-- Every universe element of a loaded export is a non-blank stripped SKU. -/
theorem universe_nonblank (rows : List WooRow) (m : AList WooEntry)
    (h : load_woo_export rows = .ok m) : ∀ s ∈ universeOf m, s ≠ "" := by
  obtain ⟨products, skus, hl, hm⟩ := load_woo_export_split rows m h
  rw [universeOf_load rows m products skus hl hm]
  intro s hs
  obtain ⟨hmem, -⟩ := loadRows_universe rows [] [] products skus hl
  rcases (hmem s).mp hs with hfalse | ⟨row, -, htr⟩
  · cases hfalse
  · unfold skuTracked at htr
    split at htr
    · split at htr
      · rename_i hcond
        obtain rfl := Option.some.inj htr
        exact hcond
      · cases htr
    · cases htr

/-- A loaded export mapping is well-formed in the sense `detect_changes`
needs. -/
theorem wfWoo_load (rows : List WooRow) (m : AList WooEntry)
    (h : load_woo_export rows = .ok m) : wfWoo m := by
  obtain ⟨products, skus, hl, hm⟩ := load_woo_export_split rows m h
  have hwf : wfProducts products :=
    loadRows_wf rows [] [] products skus hl (by intro kv hkv; cases hkv)
  subst hm
  intro kv hkv
  rcases mem_dictInsert _ _ _ _ hkv with rfl | hkv'
  · exact ⟨fun _ => ⟨skus, rfl⟩, fun hne => absurd rfl hne⟩
  · obtain ⟨⟨hne, -⟩, r, hr, h1, h2⟩ := hwf kv hkv'
    exact ⟨fun heq => absurd heq hne, fun _ => ⟨r, hr, h1, h2⟩⟩

/-! ## Claim C8 -/

theorem changeStep_ok_of_wf (b2b : AList B2BRecord)
    (st : AList Bool × List ChangeRec × List LogEntry)
    (key : String) (entry : WooEntry)
    (h1 : key = "_all_skus" → ∃ l, entry = WooEntry.skuList l)
    (h2 : key ≠ "_all_skus" → ∃ r, entry = WooEntry.record r ∧
      r.current_stock ≠ none ∧ r.current_status ≠ none) :
    ∃ st', changeStep b2b st (key, entry) = .ok st' := by
  obtain ⟨p, cs, lg⟩ := st
  by_cases hkey : key = "_all_skus"
  · exact ⟨(p, cs, lg), by simp [changeStep, hkey]⟩
  · cases hb : dictGet key b2b with
    | none => exact ⟨(p, cs, lg), by simp [changeStep, hkey, hb]⟩
    | some bd =>
      obtain ⟨r, rfl, hcs, hcst⟩ := h2 hkey
      cases hcsv : r.current_stock with
      | none => exact absurd hcsv hcs
      | some vcs =>
        cases hcstv : r.current_status with
        | none => exact absurd hcstv hcst
        | some vcst =>
          by_cases hne : vcs ≠ bd.stock ∨ vcst ≠ bd.stock_status
          · refine ⟨((if r.sku.getD "" ≠ "" then
                dictInsert (r.sku.getD "") true p else p),
              cs ++ [⟨r.sku.getD "", r.ean.getD "", DEFAULT_MANAGE_STOCK,
                bd.stock_status, bd.stock⟩],
              lg ++ [⟨if r.sku.getD "" ≠ "" then some (r.sku.getD "") else r.ean,
                vcs, bd.stock, vcst, bd.stock_status⟩]), ?_⟩
            simp [changeStep, hkey, hb, hcsv, hcstv, hne]
          · refine ⟨((if r.sku.getD "" ≠ "" then
                dictInsert (r.sku.getD "") true p else p), cs, lg), ?_⟩
            simp [changeStep, hkey, hb, hcsv, hcstv, hne]

theorem changePassRun_total (b2b : AList B2BRecord) : ∀ (woo : AList WooEntry),
    (∀ kv ∈ woo, (kv.1 = "_all_skus" → ∃ l, kv.2 = WooEntry.skuList l) ∧
      (kv.1 ≠ "_all_skus" → ∃ r, kv.2 = WooEntry.record r ∧
        r.current_stock ≠ none ∧ r.current_status ≠ none)) →
    ∀ st, ∃ out, changePassRun b2b woo st = .ok out := by
  intro woo
  induction woo with
  | nil => exact fun _ st => ⟨st, rfl⟩
  | cons kv rest ih =>
    intro hwf st
    obtain ⟨key, entry⟩ := kv
    obtain ⟨h1, h2⟩ := hwf (key, entry) (List.mem_cons_self _ _)
    obtain ⟨st₁, hstep⟩ := changeStep_ok_of_wf b2b st key entry h1 h2
    obtain ⟨out, hout⟩ := ih (fun kv h => hwf kv (List.mem_cons_of_mem _ h)) st₁
    exact ⟨out, by rw [changePassRun_cons, hstep, except_bind_ok, hout]⟩

theorem findRetention_ok (s : String) : ∀ (woo : AList WooEntry),
    (∀ kv ∈ woo, kv.1 ≠ "_all_skus" → ∃ r, kv.2 = WooEntry.record r) →
    ∃ o, findRetention s woo = .ok o := by
  intro woo
  induction woo with
  | nil => exact fun _ => ⟨none, rfl⟩
  | cons kv rest ih =>
    intro hwf
    obtain ⟨key, entry⟩ := kv
    have htail : ∀ kv ∈ rest, kv.1 ≠ "_all_skus" → ∃ r, kv.2 = WooEntry.record r :=
      fun kv h => hwf kv (List.mem_cons_of_mem _ h)
    by_cases hkey : key = "_all_skus"
    · rw [show findRetention s ((key, entry) :: rest) = findRetention s rest from by
        simp [findRetention, hkey]]
      exact ih htail
    · obtain ⟨r, rfl⟩ := hwf (key, entry) (List.mem_cons_self _ _) hkey
      by_cases hsku : r.sku = some s
      · exact ⟨some (mkRetention s r), by simp [findRetention, hkey, hsku]⟩
      · rw [show findRetention s ((key, .record r) :: rest) = findRetention s rest
          from by simp [findRetention, hkey, hsku]]
        exact ih htail

theorem retentionLoop_ok (woo : AList WooEntry)
    (hwf : ∀ kv ∈ woo, kv.1 ≠ "_all_skus" → ∃ r, kv.2 = WooEntry.record r) :
    ∀ p : AList Bool, ∃ rets, retentionLoop woo p = .ok rets := by
  intro p
  induction p with
  | nil => exact ⟨[], rfl⟩
  | cons sb rest ih =>
    obtain ⟨sku, b⟩ := sb
    obtain ⟨rets', hr⟩ := ih
    cases b with
    | true =>
      exact ⟨rets', by
        rw [show retentionLoop woo ((sku, true) :: rest) = retentionLoop woo rest
          from by simp [retentionLoop]]
        exact hr⟩
    | false =>
      obtain ⟨o, ho⟩ := findRetention_ok sku woo hwf
      refine ⟨o.toList ++ rets', ?_⟩
      rw [show retentionLoop woo ((sku, false) :: rest) =
        (findRetention sku woo >>= fun c =>
          retentionLoop woo rest >>= fun r' => .ok (c.toList ++ r'))
        from by simp [retentionLoop]]
      rw [ho, except_bind_ok, hr, except_bind_ok]

/-- Claim C8: over mappings produced by the two normalizers, the reconciler is
total — it raises no exception and always returns an `(changes, change_log)`
pair.  (It is pure by construction: the embedding is a function.) -/
theorem detect_changes_total (feed : List FeedProduct) (rows : List WooRow)
    (b2b : AList B2BRecord) (woo : AList WooEntry)
    (_hb : parse_b2b_feed feed = .ok b2b)
    (hw : load_woo_export rows = .ok woo) :
    ∃ out : List ChangeRec × List LogEntry, detect_changes b2b woo = .ok out := by
  have hwf := wfWoo_load rows woo hw
  obtain ⟨⟨p, cs, lg⟩, hcp⟩ :=
    changePassRun_total b2b woo hwf (initProcessed (universeOf woo), [], [])
  have hwf2 : ∀ kv ∈ woo, kv.1 ≠ "_all_skus" → ∃ r, kv.2 = WooEntry.record r :=
    fun kv h hk => ((hwf kv h).2 hk).imp (fun r hr => hr.1)
  obtain ⟨rets, hrl⟩ := retentionLoop_ok woo hwf2 p
  refine ⟨(cs ++ rets, lg), ?_⟩
  unfold detect_changes
  rw [hcp, except_bind_ok]
  show (retentionLoop woo p >>= fun rets' =>
    (Except.ok (cs ++ rets', lg) : Except String _)) = _
  rw [hrl, except_bind_ok]

/-- Claim C8 witness: an empty feed and the one-row export. -/
theorem detect_changes_total_witness :
    ∃ out : List ChangeRec × List LogEntry, detect_changes [] exWooEq = .ok out :=
  detect_changes_total [] exRowsEq [] exWooEq rfl rfl

/-! ## Retention-pass counting lemmas (for claims C1, C7, C10) -/

theorem retContrib_sku (woo : AList WooEntry) (sb : String × Bool) (c : ChangeRec)
    (h : c ∈ retContrib woo sb) : c.sku = sb.1 := by
  unfold retContrib at h
  by_cases hb : sb.2 = true
  · rw [if_pos hb] at h
    cases h
  · rw [if_neg hb] at h
    cases hfind : woo.find? (carriesSku sb.1) with
    | none =>
      rw [hfind] at h
      cases h
    | some kv =>
      rw [hfind] at h
      obtain ⟨k₀, e₀⟩ := kv
      cases e₀ with
      | record r =>
        rw [List.mem_singleton] at h
        subst h
        rfl
      | skuList ls => cases h

theorem retContrib_of_find_some (woo : AList WooEntry) (kv : String × WooEntry)
    (r : WooRecord) (s : String)
    (hfind : woo.find? (carriesSku s) = some kv) (hr : kv.2 = WooEntry.record r) :
    retContrib woo (s, false) = [mkRetention s r] := by
  unfold retContrib
  rw [if_neg (by simp), hfind]
  obtain ⟨k₀, e₀⟩ := kv
  simp only at hr
  subst hr
  rfl

theorem retContrib_of_find_none (woo : AList WooEntry) (s : String)
    (hfind : woo.find? (carriesSku s) = none) :
    retContrib woo (s, false) = [] := by
  unfold retContrib
  rw [if_neg (by simp), hfind]

theorem retContrib_length_le (woo : AList WooEntry) (sb : String × Bool) :
    (retContrib woo sb).length ≤ 1 := by
  unfold retContrib
  split
  · simp
  · split <;> simp

theorem find_carrier_isSome (woo : AList WooEntry) (s : String)
    (h : ∃ kv ∈ woo, kv.1 ≠ "_all_skus" ∧ entrySku kv.2 = some s) :
    ∃ kv, woo.find? (carriesSku s) = some kv := by
  obtain ⟨kv, hmem, h1, h2⟩ := h
  have hsome : (woo.find? (carriesSku s)).isSome :=
    List.find?_isSome.mpr ⟨kv, hmem, by simp [carriesSku, h1, h2]⟩
  exact Option.isSome_iff_exists.mp hsome

theorem entry_of_carries (kv : String × WooEntry) (s : String)
    (h : carriesSku s kv = true) :
    kv.1 ≠ "_all_skus" ∧ ∃ r, kv.2 = WooEntry.record r ∧ r.sku = some s := by
  unfold carriesSku at h
  rw [decide_eq_true_eq] at h
  obtain ⟨h1, h2⟩ := h
  cases he : kv.2 with
  | record r =>
    refine ⟨h1, r, rfl, ?_⟩
    rw [he] at h2
    simpa [entrySku] using h2
  | skuList ls =>
    rw [he] at h2
    simp [entrySku] at h2

/-- Counting retention records for an uncovered SKU: with unique marker keys,
the concatenated contributions contain exactly the contribution of that SKU's
own (single) marker. -/
theorem countP_retention (woo : AList WooEntry) (s : String) :
    ∀ p : AList Bool, KeysNodup p → dictGet s p = some false →
    (listJoinMap (retContrib woo) p).countP (fun c => decide (c.sku = s)) =
      (retContrib woo (s, false)).length := by
  intro p
  induction p with
  | nil =>
    intro _ h
    simp [dictGet] at h
  | cons tb rest ih =>
    intro hn hget
    obtain ⟨t, b⟩ := tb
    have hjoin : listJoinMap (retContrib woo) ((t, b) :: rest) =
        retContrib woo (t, b) ++ listJoinMap (retContrib woo) rest := rfl
    have hmap0 : (t :: rest.map Prod.fst).Nodup := by
      simpa only [KeysNodup, List.map_cons] using hn
    have hn' : KeysNodup rest := by
      simpa only [KeysNodup] using (List.nodup_cons.mp hmap0).2
    by_cases hts : t = s
    · subst hts
      have hb : b = false := by
        rw [show dictGet t ((t, b) :: rest) = some b from by simp [dictGet]] at hget
        exact Option.some.inj hget
      subst hb
      have hnotin : t ∉ rest.map Prod.fst := (List.nodup_cons.mp hmap0).1
      rw [hjoin, List.countP_append]
      have h1 : (retContrib woo (t, false)).countP (fun c => decide (c.sku = t)) =
          (retContrib woo (t, false)).length := by
        apply List.countP_eq_length.mpr
        intro c hc
        simp [retContrib_sku woo _ c hc]
      have h2 : (listJoinMap (retContrib woo) rest).countP
          (fun c => decide (c.sku = t)) = 0 := by
        apply List.countP_eq_zero.mpr
        intro c hc
        rw [mem_listJoinMap] at hc
        obtain ⟨sb', hsb', hcsb⟩ := hc
        have hcs := retContrib_sku woo sb' c hcsb
        simp only [hcs, decide_eq_true_eq]
        intro heq
        exact hnotin (heq ▸ List.mem_map_of_mem Prod.fst hsb')
      rw [h1, h2]
      simp
    · have hget' : dictGet s rest = some false := by
        rwa [dictGet_head_ne s t b rest hts] at hget
      rw [hjoin, List.countP_append, ih hn' hget']
      have h0 : (retContrib woo (t, b)).countP (fun c => decide (c.sku = s)) = 0 := by
        apply List.countP_eq_zero.mpr
        intro c hc
        have hcs := retContrib_sku woo _ c hc
        simp [hcs, hts]
      rw [h0]
      simp

/-! ## Claim C1 -/

/-- Claim C1 counterexample: a universe identifier whose keyed record matches
the supplier mapping with identical quantity and availability is marked
covered but contributes no output record at all — it appears zero times in the
change list, not exactly once. -/
theorem matched_equal_identifier_dropped :
    load_woo_export exRowsEq = .ok exWooEq ∧
    "A" ∈ universeOf exWooEq ∧
    detect_changes exB2B exWooEq = .ok ([], []) ∧
    ¬ (([] : List ChangeRec).countP (fun c => decide (c.sku = "A")) = 1) :=
  ⟨rfl, by decide, rfl, by decide⟩

/-- Claim C1 (amended): an identifier of the Universe that is still uncovered
after the change pass and is carried as the `'sku'` field of at least one
keyed export record appears exactly once in the final change list (its
retention record).  Identifiers covered by the change pass are represented
only by that pass's differing-value records — possibly zero times (matched
with equal values) or several times (several keyed records sharing the SKU) —
and an uncovered identifier carried by no keyed record is dropped (see claim
C7). -/
theorem detect_changes_uncovered_carried_once (rows : List WooRow)
    (b2b : AList B2BRecord) (woo : AList WooEntry)
    (p : AList Bool) (cs : List ChangeRec) (lg : List LogEntry)
    (out : List ChangeRec) (lgout : List LogEntry) (s : String)
    (hload : load_woo_export rows = .ok woo)
    (hcp : changePassRun b2b woo (initProcessed (universeOf woo), [], []) =
      .ok (p, cs, lg))
    (hdet : detect_changes b2b woo = .ok (out, lgout))
    (hs : s ∈ universeOf woo)
    (huncov : dictGet s p = some false)
    (hcarrier : ∃ kv ∈ woo, kv.1 ≠ "_all_skus" ∧ entrySku kv.2 = some s) :
    out.countP (fun c => decide (c.sku = s)) = 1 := by
  have hsne : s ≠ "" := universe_nonblank rows woo hload s hs
  obtain ⟨rets, hrl, hout, -⟩ :=
    detect_changes_decomposition b2b woo p cs lg out lgout hcp hdet
  subst hout
  obtain ⟨hc, -, hp3⟩ := changePassRun_characterization b2b woo _ _ _ _ _ _ hcp
  obtain ⟨-, hnotin⟩ := hp3 s hsne huncov
  have hcs0 : cs.countP (fun c => decide (c.sku = s)) = 0 := by
    apply List.countP_eq_zero.mpr
    intro c hcmem
    rw [hc] at hcmem
    simp only [List.nil_append] at hcmem
    simpa using hnotin c hcmem
  have hnod : KeysNodup p :=
    changePassRun_keysNodup b2b woo _ _ _ _ _ _ hcp (keysNodup_initProcessed _)
  have hrets := retentionLoop_characterization woo p rets hrl
  obtain ⟨kv, hfind⟩ := find_carrier_isSome woo s hcarrier
  obtain ⟨-, r, hkvr, -⟩ := entry_of_carries kv s (List.find?_some hfind)
  have hretc : retContrib woo (s, false) = [mkRetention s r] :=
    retContrib_of_find_some woo kv r s hfind hkvr
  have hcount := countP_retention woo s p hnod huncov
  rw [List.countP_append, hcs0, hrets, hcount, hretc]
  simp

/-- Claim C1 witness: supplier lists only `Z`, export's universe is `{A}` with
a keyed record carrying `A`; `A` is uncovered and receives exactly one
retention record. -/
theorem detect_changes_uncovered_carried_once_witness :
    ([⟨"A", "", "yes", "instock", 5⟩] : List ChangeRec).countP
      (fun c => decide (c.sku = "A")) = 1 :=
  detect_changes_uncovered_carried_once exRowsEq exB2BOther exWooEq
    [("A", false)] [] [] [⟨"A", "", "yes", "instock", 5⟩] [] "A"
    rfl rfl rfl (by decide) rfl
    ⟨("sku_A", .record ⟨some "A", none, some 5, some "instock", "parent", none⟩),
      by decide, by decide, rfl⟩

/-! ## Claim C7 -/

/-- Claim C7 counterexample: universe identifier `B` comes from a row that is
not addressable under the key scheme (whitespace parent reference), so no
keyed record carries it; with an empty supplier mapping (the output of
`parse_b2b_feed []`) the identifier is uncovered, yet `detect_changes` emits
no retention record at all for it — the output is empty. -/
theorem uncovered_orphan_gets_no_record :
    load_woo_export exRowsOrphan = .ok exWooOrphan ∧
    universeOf exWooOrphan = ["B"] ∧
    parse_b2b_feed [] = .ok [] ∧
    changePassRun [] exWooOrphan (initProcessed (universeOf exWooOrphan), [], []) =
      .ok ([("B", false)], [], []) ∧
    detect_changes [] exWooOrphan = .ok ([], []) :=
  ⟨rfl, rfl, rfl, rfl, rfl⟩

/-- Claim C7 (amended): for an identifier left uncovered by the change pass,
the reconciler emits the retention record built from the export's own current
quantity and availability (never the supplier's values) **provided** some
keyed export record carries that identifier as its `'sku'` field; when no
keyed record carries it, no record mentioning the identifier is emitted at
all. -/
theorem retention_uses_export_values (b2b : AList B2BRecord) (woo : AList WooEntry)
    (p : AList Bool) (cs : List ChangeRec) (lg : List LogEntry)
    (out : List ChangeRec) (lgout : List LogEntry) (s : String)
    (hcp : changePassRun b2b woo (initProcessed (universeOf woo), [], []) =
      .ok (p, cs, lg))
    (hdet : detect_changes b2b woo = .ok (out, lgout))
    (hsne : s ≠ "")
    (huncov : dictGet s p = some false) :
    (match woo.find? (carriesSku s) with
     | some kv => ∀ r, kv.2 = WooEntry.record r →
         mkRetention s r ∈ out ∧
         (mkRetention s r).stock = r.current_stock.getD 0 ∧
         (mkRetention s r).stock_status = r.current_status.getD "outofstock"
     | none => ∀ c ∈ out, c.sku ≠ s) := by
  obtain ⟨rets, hrl, hout, -⟩ :=
    detect_changes_decomposition b2b woo p cs lg out lgout hcp hdet
  subst hout
  obtain ⟨hc, -, hp3⟩ := changePassRun_characterization b2b woo _ _ _ _ _ _ hcp
  obtain ⟨-, hnotin⟩ := hp3 s hsne huncov
  have hrets := retentionLoop_characterization woo p rets hrl
  cases hfind : woo.find? (carriesSku s) with
  | some kv =>
    intro r hkvr
    have hretc := retContrib_of_find_some woo kv r s hfind hkvr
    have hmemp : (s, false) ∈ p := mem_of_dictGet_eq_some s false p huncov
    have hmem : mkRetention s r ∈ listJoinMap (retContrib woo) p := by
      rw [mem_listJoinMap]
      exact ⟨(s, false), hmemp, by rw [hretc]; exact List.mem_singleton_self _⟩
    exact ⟨List.mem_append.mpr (.inr (hrets ▸ hmem)), rfl, rfl⟩
  | none =>
    intro c hcmem
    rcases List.mem_append.mp hcmem with hcm | hcm
    · rw [hc] at hcm
      simp only [List.nil_append] at hcm
      exact hnotin c hcm
    · rw [hrets, mem_listJoinMap] at hcm
      obtain ⟨⟨t, b⟩, htb, hcr⟩ := hcm
      have hsku := retContrib_sku woo (t, b) c hcr
      intro heq
      rw [hsku] at heq
      subst heq
      cases b with
      | true =>
        unfold retContrib at hcr
        rw [if_pos rfl] at hcr
        cases hcr
      | false =>
        rw [retContrib_of_find_none woo t hfind] at hcr
        cases hcr

/-- Claim C7 witness: supplier lists only `Z`; the export's record for `A`
(quantity 5, in stock) is uncovered and its retention record re-asserts the
export's own values. -/
theorem retention_uses_export_values_witness :
    (match exWooEq.find? (carriesSku "A") with
     | some kv => ∀ r, kv.2 = WooEntry.record r →
         mkRetention "A" r ∈ ([⟨"A", "", "yes", "instock", 5⟩] : List ChangeRec) ∧
         (mkRetention "A" r).stock = r.current_stock.getD 0 ∧
         (mkRetention "A" r).stock_status = r.current_status.getD "outofstock"
     | none => ∀ c ∈ ([⟨"A", "", "yes", "instock", 5⟩] : List ChangeRec),
         c.sku ≠ "A") :=
  retention_uses_export_values exB2BOther exWooEq [("A", false)] [] []
    [⟨"A", "", "yes", "instock", 5⟩] [] "A" rfl rfl (by decide) rfl

/-! ## Claim C10 -/

/-- Claim C10: for an unprocessed SKU, the retention loop emits at most one
record; exactly one — built by `mkRetention` from the first export record (in
insertion order) whose `'sku'` field equals the SKU — when such a record
exists, and none at all when no keyed record matches. -/
theorem retention_first_match_only (b2b : AList B2BRecord) (woo : AList WooEntry)
    (p : AList Bool) (cs : List ChangeRec) (lg : List LogEntry)
    (rets : List ChangeRec) (s : String)
    (hcp : changePassRun b2b woo (initProcessed (universeOf woo), [], []) =
      .ok (p, cs, lg))
    (hrl : retentionLoop woo p = .ok rets)
    (huncov : dictGet s p = some false) :
    rets.countP (fun c => decide (c.sku = s)) ≤ 1 ∧
    (match woo.find? (carriesSku s) with
     | some kv => ∀ r, kv.2 = WooEntry.record r →
         rets.countP (fun c => decide (c.sku = s)) = 1 ∧ mkRetention s r ∈ rets
     | none => rets.countP (fun c => decide (c.sku = s)) = 0) := by
  have hnod : KeysNodup p :=
    changePassRun_keysNodup b2b woo _ _ _ _ _ _ hcp (keysNodup_initProcessed _)
  have hrets := retentionLoop_characterization woo p rets hrl
  have hcount := countP_retention woo s p hnod huncov
  subst hrets
  refine ⟨by rw [hcount]; exact retContrib_length_le woo (s, false), ?_⟩
  cases hfind : woo.find? (carriesSku s) with
  | some kv =>
    intro r hkvr
    have hretc := retContrib_of_find_some woo kv r s hfind hkvr
    constructor
    · rw [hcount, hretc]
      rfl
    · rw [mem_listJoinMap]
      exact ⟨(s, false), mem_of_dictGet_eq_some s false p huncov,
        by rw [hretc]; exact List.mem_singleton_self _⟩
  | none =>
    rw [hcount, retContrib_of_find_none woo s hfind]
    rfl

/-- Claim C10 witness: two keyed records (`ean_E1` stock 4, `ean_E2` stock 9)
share the unprocessed SKU `C`; exactly one retention record is emitted, built
from the first record in insertion order (stock 4 — the later record is
ignored). -/
theorem retention_first_match_only_witness :
    ([⟨"C", "E1", "yes", "instock", 4⟩] : List ChangeRec).countP
      (fun c => decide (c.sku = "C")) ≤ 1 ∧
    (match exWooDup.find? (carriesSku "C") with
     | some kv => ∀ r, kv.2 = WooEntry.record r →
         ([⟨"C", "E1", "yes", "instock", 4⟩] : List ChangeRec).countP
           (fun c => decide (c.sku = "C")) = 1 ∧
         mkRetention "C" r ∈ ([⟨"C", "E1", "yes", "instock", 4⟩] : List ChangeRec)
     | none => ([⟨"C", "E1", "yes", "instock", 4⟩] : List ChangeRec).countP
         (fun c => decide (c.sku = "C")) = 0) :=
  retention_first_match_only [] exWooDup [("C", false)] [] []
    [⟨"C", "E1", "yes", "instock", 4⟩] "C" rfl rfl rfl

/-! ## Claim C3 -/

theorem statusOf_agrees (n : Int) :
    (n > 0 ∧ statusOf n = STATUS_IN_STOCK) ∨
    (n ≤ 0 ∧ statusOf n = STATUS_OUT_OF_STOCK) := by
  unfold statusOf
  by_cases h : n > 0
  · exact .inl ⟨h, if_pos h⟩
  · exact .inr ⟨by omega, if_neg h⟩

theorem parseItems_cons_eq (item : FeedItem) (rest : List FeedItem)
    (products : AList B2BRecord) (total : Int) :
    parseItems (item :: rest) products total =
      parseQty item.quantity >>= fun qty =>
        parseItems rest
          (if pyStripS (item.ean.getD "") ≠ "" then
            dictInsert ("ean_" ++ pyStripS (item.ean.getD ""))
              ⟨"variation", none, some (pyStripS (item.ean.getD "")), qty,
                statusOf qty⟩ products
          else products)
          (total + qty) := by
  cases hq : parseQty item.quantity with
  | error e => simp [parseItems, hq, except_bind_err]
  | ok q => simp [parseItems, hq, except_bind_ok]

theorem parseQty_itemVal (item : FeedItem) (q : Int)
    (h : parseQty item.quantity = .ok q) : itemVal item = q := by
  cases hq : item.quantity with
  | none =>
    unfold parseQty at h
    rw [hq] at h
    have h' : (Except.ok 0 : Except String Int) = .ok q := h
    unfold itemVal
    rw [hq]
    exact Except.ok.inj h'
  | some s =>
    unfold parseQty at h
    rw [hq] at h
    have h' : (match pyParseInt s with
      | some n => Except.ok n
      | none => (Except.error "invalid literal for int()" : Except String Int)) =
        .ok q := h
    unfold itemVal
    rw [hq]
    show (pyParseInt s).getD 0 = q
    cases hp : pyParseInt s with
    | none => rw [hp] at h'; cases h'
    | some n =>
      rw [hp] at h'
      simpa using Except.ok.inj h'

theorem parseItems_sum : ∀ (items : List FeedItem) products total products' total',
    parseItems items products total = .ok (products', total') →
    total' = total + (items.map itemVal).sum := by
  intro items
  induction items with
  | nil =>
    intro products total products' total' h
    simp only [parseItems, Except.ok.injEq, Prod.mk.injEq] at h
    simp [← h.2]
  | cons item rest ih =>
    intro products total products' total' h
    rw [parseItems_cons_eq] at h
    cases hq : parseQty item.quantity with
    | error e => rw [hq, except_bind_err] at h; cases h
    | ok q =>
      rw [hq, except_bind_ok] at h
      have htot := ih _ _ _ _ h
      simp only [List.map_cons, List.sum_cons]
      rw [parseQty_itemVal item q hq]
      omega

theorem parseItems_status : ∀ (items : List FeedItem) products total products' total',
    parseItems items products total = .ok (products', total') →
    (∀ kv ∈ products, statusAgrees kv.2) → ∀ kv ∈ products', statusAgrees kv.2 := by
  intro items
  induction items with
  | nil =>
    intro products total products' total' h hinv
    simp only [parseItems, Except.ok.injEq, Prod.mk.injEq] at h
    obtain ⟨rfl, rfl⟩ := h
    exact hinv
  | cons item rest ih =>
    intro products total products' total' h hinv
    rw [parseItems_cons_eq] at h
    cases hq : parseQty item.quantity with
    | error e => rw [hq, except_bind_err] at h; cases h
    | ok q =>
      rw [hq, except_bind_ok] at h
      refine ih _ _ _ _ h ?_
      by_cases he : pyStripS (item.ean.getD "") ≠ ""
      · rw [if_pos he]
        intro kv hkv
        rcases mem_dictInsert _ _ _ _ hkv with rfl | hkv'
        · exact statusOf_agrees q
        · exact hinv kv hkv'
      · rw [if_neg he]
        exact hinv

theorem parseItems_preserve_sku_key : ∀ (items : List FeedItem) products total
    products' total' (x : String),
    parseItems items products total = .ok (products', total') →
    dictGet ("sku_" ++ x) products' = dictGet ("sku_" ++ x) products := by
  intro items
  induction items with
  | nil =>
    intro products total products' total' x h
    simp only [parseItems, Except.ok.injEq, Prod.mk.injEq] at h
    rw [h.1]
  | cons item rest ih =>
    intro products total products' total' x h
    rw [parseItems_cons_eq] at h
    cases hq : parseQty item.quantity with
    | error e => rw [hq, except_bind_err] at h; cases h
    | ok q =>
      rw [hq, except_bind_ok] at h
      rw [ih _ _ _ _ x h]
      by_cases he : pyStripS (item.ean.getD "") ≠ ""
      · rw [if_pos he]
        exact dictGet_dictInsert_ne _ _ _ _ (sku_key_ne_ean_key x _)
      · rw [if_neg he]

theorem parseProduct_eq_of_mpn_none (products : AList B2BRecord) (q : FeedProduct)
    (hm : q.mpn = none) : parseProduct products q = .ok products := by
  unfold parseProduct
  rw [hm]

theorem parseProduct_eq_of_mpn_blank (products : AList B2BRecord) (q : FeedProduct)
    (t : String) (hm : q.mpn = some t) (ht : ¬ t ≠ "") :
    parseProduct products q = .ok products := by
  unfold parseProduct
  rw [hm]
  exact if_neg ht

theorem parseProduct_eq_of_mpn_some (products : AList B2BRecord) (q : FeedProduct)
    (t : String) (hm : q.mpn = some t) (ht : t ≠ "") :
    parseProduct products q =
      parseItems (q.stock.getD []) products 0 >>= fun pt =>
        .ok (dictInsert ("sku_" ++ pyStripS t)
          ⟨"parent", some (pyStripS t), none, pt.2, statusOf pt.2⟩ pt.1) := by
  unfold parseProduct
  rw [hm]
  exact if_pos ht

theorem parseProduct_preserve (products : AList B2BRecord) (q : FeedProduct)
    (products' : AList B2BRecord) (x : String)
    (h : parseProduct products q = .ok products')
    (hk : prodKey q ≠ some ("sku_" ++ x)) :
    dictGet ("sku_" ++ x) products' = dictGet ("sku_" ++ x) products := by
  cases hm : q.mpn with
  | none =>
    rw [parseProduct_eq_of_mpn_none products q hm] at h
    rw [(Except.ok.inj h).symm]
  | some t =>
    by_cases ht : t ≠ ""
    · rw [parseProduct_eq_of_mpn_some products q t hm ht] at h
      cases hpi : parseItems (q.stock.getD []) products 0 with
      | error e => rw [hpi, except_bind_err] at h; cases h
      | ok pt =>
        rw [hpi, except_bind_ok] at h
        rw [(Except.ok.inj h).symm]
        have hne : "sku_" ++ x ≠ "sku_" ++ pyStripS t := by
          intro heq
          apply hk
          simp [prodKey, hm, ht, ← heq]
        rw [dictGet_dictInsert_ne _ _ _ _ hne]
        exact parseItems_preserve_sku_key _ _ _ _ _ x hpi
    · rw [parseProduct_eq_of_mpn_blank products q t hm ht] at h
      rw [(Except.ok.inj h).symm]

theorem parseProduct_status (products : AList B2BRecord) (q : FeedProduct)
    (products' : AList B2BRecord)
    (h : parseProduct products q = .ok products')
    (hinv : ∀ kv ∈ products, statusAgrees kv.2) :
    ∀ kv ∈ products', statusAgrees kv.2 := by
  cases hm : q.mpn with
  | none =>
    rw [parseProduct_eq_of_mpn_none products q hm] at h
    rw [← Except.ok.inj h]
    exact hinv
  | some t =>
    by_cases ht : t ≠ ""
    · rw [parseProduct_eq_of_mpn_some products q t hm ht] at h
      cases hpi : parseItems (q.stock.getD []) products 0 with
      | error e => rw [hpi, except_bind_err] at h; cases h
      | ok pt =>
        rw [hpi, except_bind_ok] at h
        rw [← Except.ok.inj h]
        intro kv hkv
        rcases mem_dictInsert _ _ _ _ hkv with rfl | hkv'
        · exact statusOf_agrees pt.2
        · exact parseItems_status _ _ _ _ _ hpi hinv kv hkv'
    · rw [parseProduct_eq_of_mpn_blank products q t hm ht] at h
      rw [← Except.ok.inj h]
      exact hinv

theorem foldlM_parse_append (l1 l2 : List FeedProduct) (acc : AList B2BRecord) :
    List.foldlM parseProduct acc (l1 ++ l2) =
      List.foldlM parseProduct acc l1 >>= fun acc' =>
        List.foldlM parseProduct acc' l2 := by
  induction l1 generalizing acc with
  | nil => simp [foldlM_parse_nil, except_bind_ok]
  | cons p rest ih =>
    rw [List.cons_append, foldlM_parse_cons, foldlM_parse_cons]
    cases hp : parseProduct acc p with
    | error e => simp [except_bind_err]
    | ok acc1 => simp [except_bind_ok, ih]

theorem foldlM_parse_preserve : ∀ (ps : List FeedProduct) (acc m : AList B2BRecord)
    (x : String),
    List.foldlM parseProduct acc ps = .ok m →
    (∀ q ∈ ps, prodKey q ≠ some ("sku_" ++ x)) →
    dictGet ("sku_" ++ x) m = dictGet ("sku_" ++ x) acc := by
  intro ps
  induction ps with
  | nil =>
    intro acc m x h _
    rw [← Except.ok.inj h]
  | cons q rest ih =>
    intro acc m x h hk
    rw [foldlM_parse_cons] at h
    cases hq : parseProduct acc q with
    | error e => rw [hq, except_bind_err] at h; cases h
    | ok acc1 =>
      rw [hq, except_bind_ok] at h
      rw [ih _ _ _ h (fun q' hq' => hk q' (List.mem_cons_of_mem _ hq'))]
      exact parseProduct_preserve _ _ _ _ hq (hk q (List.mem_cons_self _ _))

theorem foldlM_parse_status : ∀ (ps : List FeedProduct) (acc m : AList B2BRecord),
    List.foldlM parseProduct acc ps = .ok m →
    (∀ kv ∈ acc, statusAgrees kv.2) → ∀ kv ∈ m, statusAgrees kv.2 := by
  intro ps
  induction ps with
  | nil =>
    intro acc m h hinv
    rw [← Except.ok.inj h]
    exact hinv
  | cons q rest ih =>
    intro acc m h hinv
    rw [foldlM_parse_cons] at h
    cases hq : parseProduct acc q with
    | error e => rw [hq, except_bind_err] at h; cases h
    | ok acc1 =>
      rw [hq, except_bind_ok] at h
      exact ih _ _ h (parseProduct_status _ _ _ hq hinv)

/-- Claim C3: in any successfully parsed feed, (a) the parent record of a
product (not overwritten by a later product with the same stripped identifier)
has quantity equal to the sum of its line-item quantities, and (b) every
record — parent or variant — is `instock` exactly when its quantity is
positive and `outofstock` otherwise. -/
theorem parent_sum_and_availability (feed : List FeedProduct) (m : AList B2BRecord)
    (ps1 ps2 : List FeedProduct) (q : FeedProduct) (t : String)
    (hfeed : feed = ps1 ++ q :: ps2)
    (h : parse_b2b_feed feed = .ok m)
    (hm : q.mpn = some t) (ht : t ≠ "")
    (hlast : ∀ q' ∈ ps2, prodKey q' ≠ some ("sku_" ++ pyStripS t)) :
    (∃ r, dictGet ("sku_" ++ pyStripS t) m = some r ∧
      r.typ = "parent" ∧
      r.stock = ((q.stock.getD []).map itemVal).sum ∧
      r.stock_status = statusOf r.stock) ∧
    ∀ kv ∈ m, statusAgrees kv.2 := by
  subst hfeed
  unfold parse_b2b_feed at h
  rw [foldlM_parse_append] at h
  cases h1 : List.foldlM parseProduct [] ps1 with
  | error e => rw [h1, except_bind_err] at h; cases h
  | ok m1 =>
    rw [h1, except_bind_ok, foldlM_parse_cons] at h
    cases h2 : parseProduct m1 q with
    | error e => rw [h2, except_bind_err] at h; cases h
    | ok m2 =>
      rw [h2, except_bind_ok] at h
      have h2' : (parseItems (q.stock.getD []) m1 0 >>= fun pt =>
          (Except.ok (dictInsert ("sku_" ++ pyStripS t)
            ⟨"parent", some (pyStripS t), none, pt.2, statusOf pt.2⟩ pt.1)
            : Except String (AList B2BRecord))) = .ok m2 := by
        rw [← parseProduct_eq_of_mpn_some m1 q t hm ht]
        exact h2
      cases hpi : parseItems (q.stock.getD []) m1 0 with
      | error e => rw [hpi, except_bind_err] at h2'; cases h2'
      | ok pt =>
        rw [hpi, except_bind_ok] at h2'
        obtain ⟨prods1, total⟩ := pt
        have hm2 : m2 = dictInsert ("sku_" ++ pyStripS t)
            ⟨"parent", some (pyStripS t), none, total, statusOf total⟩ prods1 :=
          (Except.ok.inj h2').symm
        have hsum : total = 0 + ((q.stock.getD []).map itemVal).sum :=
          parseItems_sum _ _ _ _ _ hpi
        constructor
        · refine ⟨⟨"parent", some (pyStripS t), none, total, statusOf total⟩, ?_, rfl, ?_, rfl⟩
          · rw [foldlM_parse_preserve ps2 m2 m _ h hlast, hm2,
              dictGet_dictInsert_self]
          · simpa using hsum
        · refine foldlM_parse_status ps2 m2 m h ?_
          rw [hm2]
          intro kv hkv
          rcases mem_dictInsert _ _ _ _ hkv with rfl | hkv'
          · exact statusOf_agrees total
          · refine parseItems_status _ _ _ _ _ hpi ?_ kv hkv'
            exact foldlM_parse_status ps1 [] m1 h1 (by intro kv hkv0; cases hkv0)

/-- Claim C3 witness: the specification's aggregation example — variants
`[3, 0, 5]` give a parent with quantity `8` and status `instock`, and every
record of the parse satisfies the availability-iff-positive rule. -/
theorem parent_sum_and_availability_witness :
    (∃ r, dictGet ("sku_" ++ pyStripS "P")
        [("ean_E1", (⟨"variation", none, some "E1", 3, "instock"⟩ : B2BRecord)),
         ("ean_E2", ⟨"variation", none, some "E2", 0, "outofstock"⟩),
         ("sku_P", ⟨"parent", some "P", none, 8, "instock"⟩)] = some r ∧
      r.typ = "parent" ∧
      r.stock = (((⟨some "P", some [⟨some "3", some "E1"⟩, ⟨some "0", some "E2"⟩,
        ⟨some "5", none⟩]⟩ : FeedProduct).stock.getD []).map itemVal).sum ∧
      r.stock_status = statusOf r.stock) ∧
    ∀ kv ∈ ([("ean_E1", (⟨"variation", none, some "E1", 3, "instock"⟩ : B2BRecord)),
         ("ean_E2", ⟨"variation", none, some "E2", 0, "outofstock"⟩),
         ("sku_P", ⟨"parent", some "P", none, 8, "instock"⟩)] : AList B2BRecord),
      statusAgrees kv.2 :=
  parent_sum_and_availability exFeedSum
    [("ean_E1", ⟨"variation", none, some "E1", 3, "instock"⟩),
     ("ean_E2", ⟨"variation", none, some "E2", 0, "outofstock"⟩),
     ("sku_P", ⟨"parent", some "P", none, 8, "instock"⟩)]
    [] [] ⟨some "P", some [⟨some "3", some "E1"⟩, ⟨some "0", some "E2"⟩,
      ⟨some "5", none⟩]⟩ "P"
    rfl rfl rfl (by decide) (by intro q' hq'; cases hq')

/-! ## Claim C6 -/

/-- Claim C6: each export row is classified first-match-wins exactly as the
specification's classifier `specClassify` dictates — a parent record keyed
`sku_<identifier>`, else a variant record keyed `ean_<EAN>`, else no keyed
record — and in every case a non-blank primary identifier is added to the
universe accumulator. -/
theorem processRow_matches_spec (products : AList WooEntry) (skus : List String)
    (row : WooRow) (n : Int)
    (hstock : parseStockField row.stock = .ok n) :
    processRow products skus row = .ok
      ((match specClassify row with
        | .parentRow s => dictInsert ("sku_" ++ s)
            (.record ⟨some s, none, some n,
              some (row.stock_status.getD "outofstock"), "parent", none⟩) products
        | .variantRow e => dictInsert ("ean_" ++ e)
            (.record ⟨some (pyStripS (row.sku.getD "")), some e, some n,
              some (row.stock_status.getD "outofstock"), "variation",
              row.post_parent⟩) products
        | .unkeyed => products),
       (if pyStripS (row.sku.getD "") ≠ ""
        then addSku (pyStripS (row.sku.getD "")) skus else skus)) := by
  have hskus : (match skuTracked row with
      | some s => addSku s skus
      | none => skus) =
      (if pyStripS (row.sku.getD "") ≠ ""
       then addSku (pyStripS (row.sku.getD "")) skus else skus) := by
    unfold skuTracked
    cases hrow : row.sku with
    | none => simp [pyStripS, pyStripL]
    | some s => by_cases hb : pyStripS s ≠ "" <;> simp [hb]
  have hcond1 : (pyStripS (row.sku.getD "") ≠ "" ∧
      (row.post_parent.getD "" = "" ∨ row.post_parent = some "0")) ↔
      (pyStripS (row.sku.getD "") ≠ "" ∧
       (row.post_parent = none ∨ row.post_parent = some "" ∨
        row.post_parent = some "0")) := by
    cases row.post_parent <;> simp
  by_cases h1 : pyStripS (row.sku.getD "") ≠ "" ∧
      (row.post_parent.getD "" = "" ∨ row.post_parent = some "0")
  · have hcls : specClassify row = .parentRow (pyStripS (row.sku.getD "")) := by
      unfold specClassify
      rw [if_pos (hcond1.mp h1)]
    simp only [processRow, hcls]
    rw [if_pos h1, hstock, except_bind_ok, hskus]
  · have hns : ¬ (pyStripS (row.sku.getD "") ≠ "" ∧
        (row.post_parent = none ∨ row.post_parent = some "" ∨
         row.post_parent = some "0")) := fun hh => h1 (hcond1.mpr hh)
    by_cases h2 : pyStripS (row.ean.getD "") ≠ "" ∧
        pyStripS (row.post_parent.getD "") ≠ ""
    · have hcls : specClassify row = .variantRow (normalizeEan (row.ean.getD "")) := by
        unfold specClassify
        rw [if_neg hns, if_pos h2]
      simp only [processRow, hcls]
      rw [if_neg h1, if_pos h2, hstock, except_bind_ok, hskus]
    · have hcls : specClassify row = .unkeyed := by
        unfold specClassify
        rw [if_neg hns, if_neg h2]
      simp only [processRow, hcls]
      rw [if_neg h1, if_neg h2, hskus]

/-- Claim C6 witness: the row `(sku " A ", post_parent "0", ean "X",
stock "2.5")` classifies as a parent — `sku_A` with truncated stock 2 and
default status — and `A` enters the universe. -/
theorem processRow_matches_spec_witness :
    processRow [] [] ⟨some " A ", some "0", some "X", some "2.5", none⟩ = .ok
      ([("sku_A", .record ⟨some "A", none, some 2, some "outofstock", "parent",
          none⟩)],
       ["A"]) :=
  processRow_matches_spec [] [] ⟨some " A ", some "0", some "X", some "2.5", none⟩
    2 rfl

/-! ## Claim C9 -/

/-- Claim C9: a loaded export mapping binds the reserved key `'_all_skus'` to
the duplicate-free list of the stripped non-blank SKU values observed across
all rows, and every other key starts with `sku_` or `ean_`, so the reserved
entry can never collide with a product record. -/
theorem load_universe_reserved_and_key_shape (rows : List WooRow)
    (m : AList WooEntry) (h : load_woo_export rows = .ok m) :
    (∃ l, dictGet "_all_skus" m = some (.skuList l) ∧ l.Nodup ∧
      ∀ s, s ∈ l ↔ ∃ row ∈ rows, ∃ t, row.sku = some t ∧ pyStripS t = s ∧ s ≠ "") ∧
    ∀ kv ∈ m, kv.1 = "_all_skus" ∨ ∃ x, kv.1 = "sku_" ++ x ∨ kv.1 = "ean_" ++ x := by
  obtain ⟨products, skus, hl, hm⟩ := load_woo_export_split rows m h
  have hwfp : wfProducts products :=
    loadRows_wf rows [] [] products skus hl (fun kv hkv => absurd hkv (List.not_mem_nil kv))
  obtain ⟨hmem, hnd⟩ := loadRows_universe rows [] [] products skus hl
  subst hm
  constructor
  · refine ⟨skus, by rw [dictGet_dictInsert_self], hnd List.nodup_nil, ?_⟩
    intro s
    rw [hmem s]
    constructor
    · rintro (hfalse | ⟨row, hrow, htr⟩)
      · cases hfalse
      · refine ⟨row, hrow, ?_⟩
        unfold skuTracked at htr
        split at htr
        · rename_i t heq
          split at htr
          · rename_i hcond
            obtain rfl := Option.some.inj htr
            exact ⟨t, heq, rfl, hcond⟩
          · cases htr
        · cases htr
    · rintro ⟨row, hrow, t, hsku, hstrip, hne⟩
      right
      refine ⟨row, hrow, ?_⟩
      unfold skuTracked
      rw [hsku]
      show (if pyStripS t ≠ "" then some (pyStripS t) else none) = some s
      rw [hstrip, if_pos hne]
  · intro kv hkv
    rcases mem_dictInsert _ _ _ _ hkv with rfl | hkv'
    · exact .inl rfl
    · obtain ⟨⟨-, x, hx⟩, -⟩ := hwfp kv hkv'
      exact .inr ⟨x, hx⟩

/-- Claim C9 witness: the two-variant export — universe `["C"]`, and both
product keys `ean_`-shaped. -/
theorem load_universe_reserved_and_key_shape_witness :
    (∃ l, dictGet "_all_skus" exWooDup = some (.skuList l) ∧ l.Nodup ∧
      ∀ s, s ∈ l ↔ ∃ row ∈ exRowsDup, ∃ t, row.sku = some t ∧
        pyStripS t = s ∧ s ≠ "") ∧
    ∀ kv ∈ exWooDup, kv.1 = "_all_skus" ∨
      ∃ x, kv.1 = "sku_" ++ x ∨ kv.1 = "ean_" ++ x :=
  load_universe_reserved_and_key_shape exRowsDup exWooDup rfl

end StockSync
